import Mathlib

/-!
# XPAK package cache

A shallow embedding of `XPAKCache.cpp` (WraithXCOD): the package loader
(`LoadPackageCache`, `LoadPackage`), the extraction entry point
(`ExtractPackageObject`) and the block decoder (`DecompressPackageObject`).

Conventions of the embedding.

* A byte is a `UInt8`; memory and files are lists of bytes. A struct is kept as its
  memory image and its fields are read little-endian at their byte offsets, the way
  the source fills `Header` through a `uint8_t*`.
* Unsigned machine integers are natural numbers; additions and subtractions of the
  source are reduced modulo their width, bit operations are the ones of the source.
* An access outside an object (a vector index past the end, a copy past the end of
  the output buffer, a struct read past the end of the input) has no defined
  behaviour in the source; the embedding stops there with `Outcome.fault`.
* The `while` loop of the decoder runs on fuel; `DecompressPackageObject` gives it one
  unit per 128 bytes of input.
-/

namespace XPAK

/-! ## Bytes and machine integers -/

/-- Little-endian value of a run of bytes. -/
def readLE : List UInt8 → Nat
  | [] => 0
  | b :: bs => b.toNat + 256 * readLE bs

/-- The unsigned field of `width` bytes at byte offset `off` of a memory image. -/
def fieldAt (mem : List UInt8) (off width : Nat) : Nat :=
  readLE ((mem.drop off).take width)

/-- Addition of two `size_t` / `uint64_t` values. -/
def add64 (a b : Nat) : Nat := (a + b) % 2 ^ 64

/-- Subtraction of two `size_t` / `uint64_t` values. -/
def sub64 (a b : Nat) : Nat := (a + (2 ^ 64 - b % 2 ^ 64)) % 2 ^ 64

/-- Conversion of an `int32_t` argument to `size_t` (sign extension, then modulo 2^64). -/
def toSizeT (x : Int) : Nat := (x % (2 ^ 64 : Int)).toNat

/-! ## Collaborators that are not part of the translated sources -/

/-- Modelled from the spec: the file system collaborator (`FileSystem.h` is not among
the sources). Section 6 gives it `open(path)` and an enumeration of the files that
match a glob; here it is the list of its files, name and content, in enumeration
order. -/
structure FileSystem where
  Files : List (String × List UInt8)

/-- Modelled from the spec: `open(path) -> handle|OpenError` of section 6; the content
of the first file of that name, `none` when there is none. -/
def FileSystem.OpenFile (fs : FileSystem) (path : String) : Option (List UInt8) :=
  List.lookup path fs.Files

/-- Modelled from the spec: the glob of `EnumerateFiles` ("enumerate every file under
basePath matching the archive file extension"); a pattern `*ext` matches the names
that end in `ext`. -/
def matchesPattern (pattern name : String) : Bool :=
  name.endsWith (pattern.drop 1)

/-- Modelled from the spec: `EnumerateFiles(pattern, callback)`, the names handed to the
callback, in enumeration order. -/
def FileSystem.EnumerateFiles (fs : FileSystem) (pattern : String) : List String :=
  (fs.Files.map Prod.fst).filter (matchesPattern pattern)

/-- Modelled from the spec: the Byte Reader over an open file (`CoDFileHandle.h` is not
among the sources): the file content (`none` when the open failed) and the read
position. A read past the end of the file delivers the bytes there are and leaves the
rest of the destination as it was. -/
structure CoDFileHandle where
  Data : Option (List UInt8)
  Position : Nat

namespace CoDFileHandle

/-- The handle `CoDFileHandle(FileSystem->OpenFile(path, "r"), FileSystem.get())`. -/
def Open (fs : FileSystem) (path : String) : CoDFileHandle :=
  { Data := fs.OpenFile path, Position := 0 }

/-- The bytes behind the handle; an invalid handle has none. -/
def Bytes (r : CoDFileHandle) : List UInt8 := r.Data.getD []

/-- The call `IsValid()`. -/
def IsValid (r : CoDFileHandle) : Bool := r.Data.isSome

/-- The call `Size()`. -/
def Size (r : CoDFileHandle) : Nat := r.Bytes.length

/-- The call `Seek(offset, SEEK_SET)`. -/
def SeekSet (r : CoDFileHandle) (offset : Nat) : CoDFileHandle :=
  { r with Position := offset }

/-- The call `Seek(offset, SEEK_CUR)`. -/
def SeekCur (r : CoDFileHandle) (offset : Nat) : CoDFileHandle :=
  { r with Position := r.Position + offset }

/-- The bytes a read of `n` bytes at the current position gets. -/
def Available (r : CoDFileHandle) (n : Nat) : List UInt8 :=
  (r.Bytes.drop r.Position).take n

/-- The call `Read(buffer + off, 0, n)`: the bytes read replace those of `buffer` from
`off` on; the position moves by the number of bytes read. -/
def ReadInto (r : CoDFileHandle) (buffer : List UInt8) (off n : Nat) :
    List UInt8 × CoDFileHandle :=
  (buffer.take off ++ r.Available n ++ buffer.drop (off + (r.Available n).length),
   { r with Position := r.Position + (r.Available n).length })

/-- The calls `Read<T>()` with `sizeof(T) = n` and `Read(n)`: a zeroed buffer of `n`
bytes, read into. -/
def Read (r : CoDFileHandle) (n : Nat) : List UInt8 × CoDFileHandle :=
  r.ReadInto (List.replicate n 0) 0 n

end CoDFileHandle

/-- Modelled from the spec: the archive header `BO3XPakHeader` (`DBGameFiles.h` is not
among the sources), as its memory image of 120 bytes. The field offsets follow the
sibling `XSUBHeaderV2` of `XSUBCacheV2.h` (magic, two 16-bit words of which the second
is the version, then 64-bit fields) and the split of `LoadPackage` into 24 bytes and
96 bytes: `FileCount, DataOffset, DataSize, HashCount, HashOffset, HashSize, ...`
start at byte 24. -/
structure BO3XPakHeader where
  Bytes : List UInt8

namespace BO3XPakHeader

/-- The field `uint32_t Magic` at byte 0. -/
def Magic (h : BO3XPakHeader) : Nat := fieldAt h.Bytes 0 4

/-- The field `uint16_t Version` at byte 6. -/
def Version (h : BO3XPakHeader) : Nat := fieldAt h.Bytes 6 2

/-- The field `uint64_t DataOffset` at byte 32. -/
def DataOffset (h : BO3XPakHeader) : Nat := fieldAt h.Bytes 32 8

/-- The field `uint64_t HashCount` at byte 48. -/
def HashCount (h : BO3XPakHeader) : Nat := fieldAt h.Bytes 48 8

/-- The field `uint64_t HashOffset` at byte 56. -/
def HashOffset (h : BO3XPakHeader) : Nat := fieldAt h.Bytes 56 8

end BO3XPakHeader

/-- Modelled from the spec: the hash record `BO3XPakHashEntry` (`DBGameFiles.h` is not
among the sources), "{key, relative offset, size}" stored directly: three 64-bit
fields, 24 bytes. -/
structure BO3XPakHashEntry where
  Bytes : List UInt8

namespace BO3XPakHashEntry

/-- The field `uint64_t Key` at byte 0. -/
def Key (e : BO3XPakHashEntry) : Nat := fieldAt e.Bytes 0 8

/-- The field `uint64_t Offset` at byte 8. -/
def Offset (e : BO3XPakHashEntry) : Nat := fieldAt e.Bytes 8 8

/-- The field `uint64_t Size` at byte 16. -/
def Size (e : BO3XPakHashEntry) : Nat := fieldAt e.Bytes 16 8

end BO3XPakHashEntry

/-- Modelled from the spec: the block header `BO3XPakDataHeader` (`DBGameFiles.h` is not
among the sources), "a run of command words", 128 bytes: `uint32_t Count`,
`uint32_t Offset`, `uint32_t Commands[30]`. -/
structure BO3XPakDataHeader where
  Bytes : List UInt8

namespace BO3XPakDataHeader

/-- The field `uint32_t Count` at byte 0. -/
def Count (h : BO3XPakDataHeader) : Nat := fieldAt h.Bytes 0 4

/-- The element `Commands[i]`; the array has 30 elements and starts at byte 8. -/
def Commands (h : BO3XPakDataHeader) (i : Nat) : Option Nat :=
  if i < 30 then some (fieldAt h.Bytes (8 + 4 * i) 4) else none

end BO3XPakDataHeader

/-- Modelled from the spec: the enumeration `SupportedGames` (`CoDAssets.h` is not among
the sources); the decoder only tells `ModernWarfare4`, the revision that aligns its
blocks to 4 bytes, from the others. -/
inductive SupportedGames where
  | ModernWarfare4
  | Other
  deriving DecidableEq, Repr

/-- The external decoders, `Compression::DecompressLZ4Block` and `Siren::Decompress`
(section 6: `decompress(src, srcLen, dst, dstLen) -> bytesWritten`): from the source
bytes and the destination length to the bytes stored at the destination and the
value returned. They are parameters of the embedding. -/
structure Codecs where
  DecompressLZ4Block : List UInt8 → Nat → List UInt8 × Nat
  SirenDecompress : List UInt8 → Nat → List UInt8 × Nat

/-- Modelled from the spec: `MemoryReader::Read<T>()` (`MemoryReader.h` is not among the
sources), the typed fixed-size read of section 2 with `readExact(n) -> bytes|EOFError`
of section 6: the `n` bytes at the cursor and the cursor behind them, `none` when
fewer than `n` bytes are left. -/
def MemoryReader.Read (buffer : List UInt8) (pos n : Nat) : Option (List UInt8 × Nat) :=
  if pos + n ≤ buffer.length then some ((buffer.drop pos).take n, pos + n) else none

/-- Modelled from the spec: `MemoryReader::GetCurrentStream(n)`, the
`borrowSpan(n) -> &[u8]|None` of section 6 ("give me the next N bytes as a borrowed
view"): the `n` bytes at the cursor and the cursor behind them, `none` (the source's
`nullptr`) when fewer than `n` bytes are left. -/
def MemoryReader.GetCurrentStream (buffer : List UInt8) (pos n : Nat) :
    Option (List UInt8 × Nat) :=
  if pos + n ≤ buffer.length then some ((buffer.drop pos).take n, pos + n) else none

/-! ## The package index -/

/-- One entry of the index, `PackageCacheObject` of the base class (the spec's
CacheEntry). -/
structure PackageCacheObject where
  Offset : Nat
  CompressedSize : Nat
  UncompressedSize : Nat
  PackageFileIndex : Nat
  deriving DecidableEq, Repr, Inhabited

/-- The value-initialised entry `PackageCacheObject{}`. -/
def PackageCacheObject.zero : PackageCacheObject :=
  { Offset := 0, CompressedSize := 0, UncompressedSize := 0, PackageFileIndex := 0 }

/-- The map `CacheObjects` from content key to entry, as an association list with
at most one pair per key. -/
abbrev CacheMap := List (Nat × PackageCacheObject)

/-- The call `CacheObjects.find(key)`; `none` stands for `end()`. -/
def CacheMap.find : CacheMap → Nat → Option PackageCacheObject
  | [], _ => none
  | (k, v) :: rest, key => if k = key then some v else CacheMap.find rest key

/-- The call `CacheObjects.insert(std::make_pair(key, v))`: a map that has the key
already is left as it is. -/
def CacheMap.insert (m : CacheMap) (key : Nat) (v : PackageCacheObject) : CacheMap :=
  match CacheMap.find m key with
  | some _ => m
  | none => m ++ [(key, v)]

/-- The expression `CacheObjects[key]`: the entry under the key, which is inserted
value-initialised when the map does not have it. -/
def CacheMap.index (m : CacheMap) (key : Nat) : PackageCacheObject × CacheMap :=
  match CacheMap.find m key with
  | some v => (v, m)
  | none => (PackageCacheObject.zero, m ++ [(key, PackageCacheObject.zero)])

/-- The state of an `XPAKCache` object: the index, the archive paths and the loaded
flag of the base class `CoDPackageCache`. -/
structure XPAKCache where
  CacheObjects : CacheMap
  PackageFilePaths : List String
  Loaded : Bool
  deriving DecidableEq, Repr

/-- A cache before any load. -/
def XPAKCache.empty : XPAKCache :=
  { CacheObjects := [], PackageFilePaths := [], Loaded := false }

/-! ## LoadPackage -/

/-- Lines 61-71 of `LoadPackage`: the header is read in one piece; when its version is
0xD it is read again, 24 bytes from offset 0 and, 288 bytes further, 96 bytes into
the rest of the struct. -/
def readHeader (Reader : CoDFileHandle) : BO3XPakHeader × CoDFileHandle :=
  let r0 := Reader.Read 120
  if BO3XPakHeader.Version ⟨r0.1⟩ = 0xD then
    let r1 := (r0.2.SeekSet 0).ReadInto r0.1 0 24
    let r2 := (r1.2.SeekCur 288).ReadInto r1.1 24 96
    (⟨r2.1⟩, r2.2)
  else
    (⟨r0.1⟩, r0.2)

/-- Lines 86-91: the cache entry prepared from a hash record. -/
def NewObject (Header : BO3XPakHeader) (PackageIndex : Nat) (Entry : BO3XPakHashEntry) :
    PackageCacheObject :=
  { Offset := add64 Header.DataOffset Entry.Offset
    CompressedSize := Entry.Size &&& 0xFFFFFFFFFFFFFF
    UncompressedSize := 0
    PackageFileIndex := PackageIndex }

/-- One turn of the loop of lines 80-94: read a record, insert its entry. -/
def loadEntry (Header : BO3XPakHeader) (PackageIndex : Nat)
    (st : CoDFileHandle × CacheMap) : CoDFileHandle × CacheMap :=
  let r := st.1.Read 24
  (r.2, CacheMap.insert st.2 (BO3XPakHashEntry.Key ⟨r.1⟩)
          (NewObject Header PackageIndex ⟨r.1⟩))

/-- The loop of lines 80-94, run for `n` records. -/
def loadEntries (Header : BO3XPakHeader) (PackageIndex : Nat) :
    Nat → CoDFileHandle × CacheMap → CoDFileHandle × CacheMap
  | 0, st => st
  | n + 1, st => loadEntries Header PackageIndex n (loadEntry Header PackageIndex st)

/-- The test of line 74 on the header read from a file. -/
def validHeader (Header : BO3XPakHeader) (Reader : CoDFileHandle) : Bool :=
  decide (Header.Magic = 0x4950414b ∧ Header.HashOffset < Reader.Size)

/-- The function `XPAKCache::LoadPackage`: the value returned and the cache afterwards.
The call of the base class leaves the index alone. -/
def LoadPackage (fs : FileSystem) (self : XPAKCache) (FilePath : String) :
    Bool × XPAKCache :=
  let PackageIndex := self.PackageFilePaths.length % 2 ^ 32
  let Reader := CoDFileHandle.Open fs FilePath
  let hr := readHeader Reader
  if validHeader hr.1 hr.2 then
    let Reader := hr.2.SeekSet hr.1.HashOffset
    let done := loadEntries hr.1 PackageIndex hr.1.HashCount (Reader, self.CacheObjects)
    (true, { self with CacheObjects := done.2
                       PackageFilePaths := self.PackageFilePaths ++ [FilePath] })
  else
    (false, self)

/-- The callback of line 43 run over a sequence of file names: `LoadPackage` on each,
its result dropped. -/
def loadFiles (fs : FileSystem) (self : XPAKCache) (names : List String) : XPAKCache :=
  names.foldl (fun c name => (LoadPackage fs c name).2) self

/-- The function `XPAKCache::LoadPackageCache`: every enumerated `*.xpak` file goes
through `LoadPackage`; then the loaded flag is set. The call of the base class leaves
the index alone. -/
def LoadPackageCache (fs : FileSystem) (self : XPAKCache) : XPAKCache :=
  { loadFiles fs self (fs.EnumerateFiles "*.xpak") with Loaded := true }

/-! ### What `LoadPackage` sees of a file -/

/-- The bytes of the file behind a path (none when it cannot be opened). -/
def archiveBytes (fs : FileSystem) (path : String) : List UInt8 :=
  (CoDFileHandle.Open fs path).Bytes

/-- The header `LoadPackage` validates and decodes for a path. -/
def archiveHeader (fs : FileSystem) (path : String) : BO3XPakHeader :=
  (readHeader (CoDFileHandle.Open fs path)).1

/-- The archive behind a path has a valid header: the test of line 74 passes. -/
def acceptsHeader (fs : FileSystem) (path : String) : Bool :=
  validHeader (readHeader (CoDFileHandle.Open fs path)).1
    (readHeader (CoDFileHandle.Open fs path)).2

/-- The reader `LoadPackage` starts its loop over the hash table with (line 77). -/
def hashReader (fs : FileSystem) (path : String) : CoDFileHandle :=
  (readHeader (CoDFileHandle.Open fs path)).2.SeekSet (archiveHeader fs path).HashOffset

/-- A reader stands at `q` for what it will read: the bytes from its position on are the
bytes of the file from `q` on. -/
def StandsAt (r : CoDFileHandle) (q : Nat) : Prop :=
  r.Bytes.drop r.Position = r.Bytes.drop q

/-- The 24 bytes of record `i` of a hash table at offset `off` of a file, zero where the
file has ended. -/
def recordAt (file : List UInt8) (off i : Nat) : List UInt8 :=
  (file.drop (off + 24 * i)).take 24 ++
    (List.replicate 24 0).drop ((file.drop (off + 24 * i)).take 24).length

/-- Record `i` of the hash table of the archive behind a path. -/
def hashRecord (fs : FileSystem) (path : String) (i : Nat) : BO3XPakHashEntry :=
  ⟨recordAt (archiveBytes fs path) (archiveHeader fs path).HashOffset i⟩

/-- Every entry of the index was decoded from a record of an archive of the path list, and
its owner index is the position of that archive, modulo 2^32. -/
def Owned (fs : FileSystem) (c : XPAKCache) : Prop :=
  ∀ K e, CacheMap.find c.CacheObjects K = some e →
    ∃ n owner i, c.PackageFilePaths[n]? = some owner ∧ e.PackageFileIndex = n % 2 ^ 32 ∧
      acceptsHeader fs owner = true ∧ i < (archiveHeader fs owner).HashCount ∧
      (hashRecord fs owner i).Key = K ∧
      e = NewObject (archiveHeader fs owner) e.PackageFileIndex (hashRecord fs owner i)

/-! ## DecompressPackageObject -/

/-- What a call ends in: it returns (a buffer or `nullptr`, and the result size), it
leaves the defined behaviour of the source, or the fuel of the embedding runs out. -/
inductive Outcome where
  | returned (buffer : Option (List UInt8)) (resultSize : Nat)
  | fault
  | outOfFuel
  deriving DecidableEq, Repr

/-- The locals of `DecompressPackageObject`: the cursor of `reader`, the output buffer
`result`, `resultSize` and `remaining`. -/
structure DecodeState where
  Position : Nat
  result : List UInt8
  resultSize : Nat
  remaining : Nat
  deriving DecidableEq, Repr

/-- A store of `bytes` at offset `off` of the output buffer; `none` when the bytes do
not lie inside the buffer. -/
def writeAt (result : List UInt8) (off : Nat) (bytes : List UInt8) : Option (List UInt8) :=
  if off + bytes.length ≤ result.length then
    some (result.take off ++ bytes ++ result.drop (off + bytes.length))
  else
    none

/-- The switch of lines 191-220 on a block whose bytes `dataBlock` the reader has
handed out. A store that does not lie inside the output buffer, and a block of flag 8
too short for its length word (line 207 then passes `blockSize - 4`, wrapped around, as
the source length), leave the defined behaviour. -/
def decodeBlock (codecs : Codecs) (flag blockSize : Nat) (dataBlock : List UInt8)
    (st : DecodeState) : Except Outcome DecodeState :=
  if flag = 0x3 then
    let decompressedSize := st.remaining
    let r := codecs.DecompressLZ4Block dataBlock decompressedSize
    match writeAt st.result st.resultSize r.1 with
    | none => .error .fault
    | some out =>
      .ok { st with result := out
                    resultSize := add64 st.resultSize decompressedSize
                    remaining := sub64 st.remaining r.2 }
  else if flag = 0x6 then
    let decompressedSize := min st.remaining 262112
    let r := codecs.SirenDecompress dataBlock decompressedSize
    match writeAt st.result st.resultSize r.1 with
    | none => .error .fault
    | some out =>
      .ok { st with result := out
                    resultSize := add64 st.resultSize decompressedSize
                    remaining := sub64 st.remaining decompressedSize }
  else if flag = 0x8 then
    if blockSize < 4 then .error .fault
    else
      let decompressedSize := fieldAt dataBlock 0 4
      let r := codecs.SirenDecompress (dataBlock.drop 4) decompressedSize
      match writeAt st.result st.resultSize r.1 with
      | none => .error .fault
      | some out =>
        .ok { st with result := out
                      resultSize := add64 st.resultSize decompressedSize
                      remaining := sub64 st.remaining decompressedSize }
  else if flag = 0x0 then
    match writeAt st.result st.resultSize dataBlock with
    | none => .error .fault
    | some out =>
      .ok { st with result := out
                    resultSize := add64 st.resultSize blockSize
                    remaining := sub64 st.remaining blockSize }
  else
    .ok st

/-- The argument of `reader.Advance` in line 224:
`((blockSize + 3) & 0xFFFFFFFC) - blockSize`. -/
def blockAdvance (blockSize : Nat) : Nat :=
  sub64 ((blockSize + 3) &&& 0xFFFFFFFC) blockSize

/-- The argument of `reader.SetPosition` in line 227:
`(reader.GetPosition() + 0x7F) & 0xFFFFFFFFFFFFF80`. -/
def alignPosition (pos : Nat) : Nat :=
  ((pos + 0x7F) % 2 ^ 64) &&& 0xFFFFFFFFFFFFF80

/-- The body of the loop of lines 173-225 for one command word. -/
def processCommand (codecs : Codecs) (GameID : SupportedGames) (buffer : List UInt8)
    (Command : Nat) (st : DecodeState) : Except Outcome DecodeState :=
  let blockSize := Command &&& 0xFFFFFF
  let flag := Command >>> 24
  match MemoryReader.GetCurrentStream buffer st.Position blockSize with
  | none => .error (.returned none 0)
  | some (dataBlock, pos) =>
    match decodeBlock codecs flag blockSize dataBlock { st with Position := pos } with
    | .error o => .error o
    | .ok st1 =>
      if GameID = SupportedGames.ModernWarfare4 then
        .ok { st1 with
          Position := add64 st1.Position (blockAdvance blockSize) }
      else
        .ok st1

/-- The loop of lines 173-225 from command `i` on, with `todo` commands to go. -/
def processCommands (codecs : Codecs) (GameID : SupportedGames) (buffer : List UInt8)
    (blockHeader : BO3XPakDataHeader) : Nat → Nat → DecodeState → Except Outcome DecodeState
  | 0, _, st => .ok st
  | todo + 1, i, st =>
    match blockHeader.Commands i with
    | none => .error .fault
    | some Command =>
      match processCommand codecs GameID buffer Command st with
      | .error o => .error o
      | .ok st1 => processCommands codecs GameID buffer blockHeader todo (i + 1) st1

/-- The body of the loop of lines 167-228: a block header, its commands, the
re-alignment of the cursor. -/
def processBlockHeader (codecs : Codecs) (GameID : SupportedGames) (buffer : List UInt8)
    (st : DecodeState) : Except Outcome DecodeState :=
  match MemoryReader.Read buffer st.Position 128 with
  | none => .error .fault
  | some (bytes, pos) =>
    match processCommands codecs GameID buffer ⟨bytes⟩ (BO3XPakDataHeader.Count ⟨bytes⟩) 0
            { st with Position := pos } with
    | .error o => .error o
    | .ok st1 =>
      .ok { st1 with Position := alignPosition st1.Position }

/-- The loop of lines 167-228 and the return of line 230. -/
def decompressLoop (codecs : Codecs) (GameID : SupportedGames) (buffer : List UInt8) :
    Nat → DecodeState → Outcome
  | 0, st =>
    if st.Position < buffer.length then .outOfFuel
    else .returned (some st.result) st.resultSize
  | fuel + 1, st =>
    if st.Position < buffer.length then
      match processBlockHeader codecs GameID buffer st with
      | .error o => o
      | .ok st1 => decompressLoop codecs GameID buffer fuel st1
    else .returned (some st.result) st.resultSize

/-- The locals at line 165. -/
def DecodeState.initial (decompressedSize : Nat) : DecodeState :=
  { Position := 0
    result := List.replicate decompressedSize 0
    resultSize := 0
    remaining := decompressedSize }

/-- The function `XPAKCache::DecompressPackageObject` on an input `buffer` of
`bufferSize = buffer.length` bytes. -/
def DecompressPackageObject (codecs : Codecs) (GameID : SupportedGames) (_cacheID : Nat)
    (buffer : List UInt8) (decompressedSize : Nat) : Outcome :=
  if decompressedSize = 0 then .returned none 0
  else
    decompressLoop codecs GameID buffer ((buffer.length + 127) / 128)
      (DecodeState.initial decompressedSize)

/-! ## ExtractPackageObject -/

/-- What a call of `ExtractPackageObject` leaves behind: how it ended (with the value of
the caller's `ResultSize` variable after the call), the cache afterwards, and the
paths it opened. -/
structure ExtractEffect where
  outcome : Outcome
  cache : XPAKCache
  opened : List String
  deriving DecidableEq, Repr

/-- The function `XPAKCache::ExtractPackageObject`; `ResultSize` is the value the caller's
variable holds before the call. The local `DecompressedSize` of line 134 is never
read, so it has no counterpart here: line 139 passes `Size` itself. -/
def ExtractPackageObject (codecs : Codecs) (GameID : SupportedGames) (fs : FileSystem)
    (self : XPAKCache) (CacheID : Nat) (Size : Int) (ResultSize : Nat) : ExtractEffect :=
  if (CacheMap.find self.CacheObjects CacheID).isSome then
    let CacheInfo := (CacheMap.index self.CacheObjects CacheID).1
    let self1 := { self with CacheObjects := (CacheMap.index self.CacheObjects CacheID).2 }
    match self1.PackageFilePaths[CacheInfo.PackageFileIndex]? with
    | none => { outcome := .fault, cache := self1, opened := [] }
    | some XPAKFileName =>
      let Reader := CoDFileHandle.Open fs XPAKFileName
      if Reader.IsValid = false then
        { outcome := .returned none ResultSize, cache := self1, opened := [XPAKFileName] }
      else
        let Reader1 := Reader.SeekSet CacheInfo.Offset
        let payload := (Reader1.Read CacheInfo.CompressedSize).1
        match DecompressPackageObject codecs GameID CacheID payload (toSizeT Size) with
        | .returned outputBuffer ResultSizeSizeT =>
          { outcome := .returned outputBuffer (ResultSizeSizeT % 2 ^ 32)
            cache := self1, opened := [XPAKFileName] }
        | o => { outcome := o, cache := self1, opened := [XPAKFileName] }
  else
    { outcome := .returned none 0, cache := self, opened := [] }

/-! ## The commands a decoding reaches -/

/-- The commands the loop of lines 173-225 reads, each with the locals it is read at. -/
def commandsTrace (codecs : Codecs) (GameID : SupportedGames) (buffer : List UInt8)
    (blockHeader : BO3XPakDataHeader) : Nat → Nat → DecodeState → List (DecodeState × Nat)
  | 0, _, _ => []
  | todo + 1, i, st =>
    match blockHeader.Commands i with
    | none => []
    | some Command =>
      (st, Command) ::
        match processCommand codecs GameID buffer Command st with
        | .error _ => []
        | .ok st1 => commandsTrace codecs GameID buffer blockHeader todo (i + 1) st1

/-- The commands one turn of the loop of lines 167-228 reads. -/
def blockHeaderTrace (codecs : Codecs) (GameID : SupportedGames) (buffer : List UInt8)
    (st : DecodeState) : List (DecodeState × Nat) :=
  match MemoryReader.Read buffer st.Position 128 with
  | none => []
  | some (bytes, pos) =>
    commandsTrace codecs GameID buffer ⟨bytes⟩ (BO3XPakDataHeader.Count ⟨bytes⟩) 0
      { st with Position := pos }

/-- The commands the loop of lines 167-228 reads. -/
def loopTrace (codecs : Codecs) (GameID : SupportedGames) (buffer : List UInt8) :
    Nat → DecodeState → List (DecodeState × Nat)
  | 0, _ => []
  | fuel + 1, st =>
    if st.Position < buffer.length then
      blockHeaderTrace codecs GameID buffer st ++
        match processBlockHeader codecs GameID buffer st with
        | .error _ => []
        | .ok st1 => loopTrace codecs GameID buffer fuel st1
    else []

/-- The commands a call of `DecompressPackageObject` reads, in the order it reads them,
each with the locals (cursor, output, result size, budget) it is read at. -/
def decodeTrace (codecs : Codecs) (GameID : SupportedGames) (buffer : List UInt8)
    (decompressedSize : Nat) : List (DecodeState × Nat) :=
  if decompressedSize = 0 then []
  else
    loopTrace codecs GameID buffer ((buffer.length + 127) / 128)
      (DecodeState.initial decompressedSize)

/-! ## The layout of a compressed stream -/

/-- The four bytes of a 32-bit word, little-endian. -/
def le32 (n : Nat) : List UInt8 :=
  [UInt8.ofNat n, UInt8.ofNat (n / 2 ^ 8), UInt8.ofNat (n / 2 ^ 16), UInt8.ofNat (n / 2 ^ 24)]

/-- The eight bytes of a 64-bit word, little-endian. -/
def le64 (n : Nat) : List UInt8 := le32 n ++ le32 (n / 2 ^ 32)

/-- A command word: the method flag in the top byte, the block size in the low 24 bits. -/
def commandWord (flag blockSize : Nat) : Nat := (flag <<< 24) ||| blockSize

/-- The command words of a run of raw (flag 0) blocks. -/
def rawCommands : List (List UInt8) → List UInt8
  | [] => []
  | b :: bs => le32 (commandWord 0 b.length) ++ rawCommands bs

/-- The block header of a run of raw blocks: the count, the offset word, the command
words, and the unused command words up to 30. -/
def rawBlockHeader (blocks : List (List UInt8)) : List UInt8 :=
  le32 blocks.length ++ le32 0 ++ rawCommands blocks ++
    List.replicate (4 * (30 - blocks.length)) 0

/-- The bytes that follow a block of `blockSize` bytes: none, or in the revision aligned
to 4 bytes the padding up to the next multiple of 4. -/
def blockPadding (GameID : SupportedGames) (blockSize : Nat) : List UInt8 :=
  if GameID = SupportedGames.ModernWarfare4 then List.replicate ((4 - blockSize % 4) % 4) 0
  else []

/-- The bytes of a run of blocks, one after the other. -/
def blockData (GameID : SupportedGames) : List (List UInt8) → List UInt8
  | [] => []
  | b :: bs => b ++ blockPadding GameID b.length ++ blockData GameID bs

/-- A block header with the bytes of its raw blocks. -/
def rawGroup (GameID : SupportedGames) (blocks : List (List UInt8)) : List UInt8 :=
  rawBlockHeader blocks ++ blockData GameID blocks

/-- Zero bytes up to the next multiple of 128. -/
def padTo128 (bytes : List UInt8) : List UInt8 :=
  bytes ++ List.replicate ((128 - bytes.length % 128) % 128) 0

/-- The compressed stream of a sequence of groups of raw blocks: each group is a block
header and its blocks, padded to the next 128-byte boundary before the block header
that follows. -/
def rawStream (GameID : SupportedGames) : List (List (List UInt8)) → List UInt8
  | [] => []
  | [g] => rawGroup GameID g
  | g :: g1 :: gs => padTo128 (rawGroup GameID g) ++ rawStream GameID (g1 :: gs)

/-! ## Concrete archives -/

namespace Fixture

/-- A header of 120 bytes with the magic and the given version, data offset, hash count
and hash offset; every other field is zero. -/
def header (version dataOffset hashCount hashOffset : Nat) : List UInt8 :=
  le32 0x4950414b ++ [0, 0] ++ [UInt8.ofNat version, 0] ++ List.replicate 16 0 ++
    le64 0 ++ le64 dataOffset ++ le64 0 ++ le64 hashCount ++ le64 hashOffset ++
    List.replicate 56 0

/-- A hash record. -/
def record (key offset size : Nat) : List UInt8 := le64 key ++ le64 offset ++ le64 size

/-- An archive without data: a header and, right behind it, the given hash records. -/
def indexOnly (records : List (List UInt8)) : List UInt8 :=
  header 0 120 records.length 120 ++ records.flatten

/-- Two archives that both hold the key 0xAA (the first one twice), and a file that is
no archive. -/
def collidingFs : FileSystem :=
  ⟨[("a.xpak", indexOnly [record 0xAA 8 16, record 0xBB 24 (2 ^ 63 + 5), record 0xAA 40 7]),
    ("junk.xpak", [1, 2, 3]),
    ("b.xpak", indexOnly [record 0xCC 0 1, record 0xAA 64 9])]⟩

/-- An archive with no hash record (its hash table starts at offset 0 and has no
record) and an archive with one, for the key 0xAA. -/
def wrapFs : FileSystem :=
  ⟨[("a.xpak", header 0 120 0 0), ("b.xpak", indexOnly [record 0xAA 0 0])]⟩

/-- Decoders that store nothing. -/
def noCodecs : Codecs := ⟨fun _ _ => ([], 0), fun _ _ => ([], 0)⟩

/-- The cache after `LoadPackageCache` on the two colliding archives. -/
def collidingCache : XPAKCache := LoadPackageCache collidingFs XPAKCache.empty

/-- The file system after its archives have been removed. -/
def emptyFs : FileSystem := ⟨[]⟩

/-- A stream cut short: a block header that announces a raw block of 4 bytes and a raw
block of 100 bytes, the 4 bytes "DATA" of the first block, and 3 bytes of the second. -/
def cutStream : List UInt8 :=
  rawBlockHeader [[68, 65, 84, 65], List.replicate 100 0] ++ [68, 65, 84, 65] ++ [1, 2, 3]

end Fixture

/-- Equality of the results of a step of the decoder can be decided. -/
instance decEqStep : DecidableEq (Except Outcome DecodeState)
  | .ok a, .ok b =>
    if h : a = b then isTrue (congrArg Except.ok h)
    else isFalse (fun h1 => h (Except.ok.inj h1))
  | .error a, .error b =>
    if h : a = b then isTrue (congrArg Except.error h)
    else isFalse (fun h1 => h (Except.error.inj h1))
  | .ok _, .error _ => isFalse (fun h => Except.noConfusion h)
  | .error _, .ok _ => isFalse (fun h => Except.noConfusion h)

/-! ## Block headers of any commands -/

/-- The command words of a block header, one after the other. -/
def commandWords : List Nat → List UInt8
  | [] => []
  | c :: cs => le32 c ++ commandWords cs

/-- The block header of a run of commands: the count, the offset word, the command words,
and the unused command words up to 30. -/
def blockHeaderBytes (commands : List Nat) : List UInt8 :=
  le32 commands.length ++ le32 0 ++ commandWords commands ++
    List.replicate (4 * (30 - commands.length)) 0

namespace Fixture

/-- Decoders that store the source bytes as they are, as many as the destination takes,
and return their number. -/
def storedCodecs : Codecs :=
  ⟨fun src n => (src.take n, (src.take n).length),
   fun src n => (src.take n, (src.take n).length)⟩

/-- An LZ4 block decoder for blocks that are one run of literals (a token with the
number of literals in its high four bits, then the literals): it stores the literals and
returns their number, or stores nothing and returns 0 when the destination is smaller. -/
def literalCodecs : Codecs :=
  ⟨fun src n =>
      if ((src.drop 1).take ((src.headD 0).toNat / 16)).length ≤ n then
        ((src.drop 1).take ((src.headD 0).toNat / 16),
         ((src.drop 1).take ((src.headD 0).toNat / 16)).length)
      else ([], 0),
   fun _ _ => ([], 0)⟩

/-- A stream of one block of flag 6 with the bytes 1 2 3. -/
def implicitStream : List UInt8 := blockHeaderBytes [commandWord 6 3] ++ [1, 2, 3]

/-- A stream of one block of flag 8: the length word 3, then the bytes 7 8 9. -/
def explicitStream : List UInt8 := blockHeaderBytes [commandWord 8 7] ++ le32 3 ++ [7, 8, 9]

/-- A stream of two LZ4 blocks, the literals "AB" and the literals "CDE". -/
def lz4Stream : List UInt8 :=
  blockHeaderBytes [commandWord 3 3, commandWord 3 4] ++ [0x20, 65, 66] ++ [0x30, 67, 68, 69]

/-- The locals when the first command of a stream is read, for an output of `n` bytes. -/
def atFirstCommand (n : Nat) : DecodeState :=
  { Position := 128, result := List.replicate n 0, resultSize := 0, remaining := n }

end Fixture

/-- The header struct after the plain read of line 62: the first 120 bytes of the file,
zero where the file has ended. -/
def contiguousHeader (file : List UInt8) : BO3XPakHeader :=
  ⟨file.take 120 ++ List.replicate (120 - file.length) 0⟩

namespace Fixture

/-- An archive of version 0xD: the first 24 bytes of the header, 288 reserved bytes (0xEE
each), the other 96 bytes of the header (file count 1, data offset 432, data size 0, hash
count 1, hash offset 408), and one hash record for the key 0xAA. -/
def variantArchive : List UInt8 :=
  le32 0x4950414b ++ [0, 0] ++ [0x0D, 0] ++ List.replicate 16 0 ++
    List.replicate 288 0xEE ++
    (le64 1 ++ le64 432 ++ le64 0 ++ le64 1 ++ le64 408 ++ List.replicate 56 0) ++
    record 0xAA 0 0

/-- A file system with the archive of version 0xD. -/
def variantFs : FileSystem := ⟨[("mw4.xpak", variantArchive)]⟩

end Fixture

namespace Fixture

/-- The 16 bytes "HELLOWORLDHELLOW". -/
def hello : List UInt8 := [72, 69, 76, 76, 79, 87, 79, 82, 76, 68, 72, 69, 76, 76, 79, 87]

/-- An archive with one hash record `{key = 0xAA, offset = 0, size}`: the header (data
offset 120, hash count 1, hash offset 264), the data region, made of one block header
and the raw block "HELLOWORLDHELLOW" (144 bytes), and the hash record. -/
def helloArchive (size : Nat) : List UInt8 :=
  header 0 120 1 264 ++ (rawBlockHeader [hello] ++ hello) ++ record 0xAA 0 size

/-- The archive whose hash record gives the size of the raw block, 16. -/
def helloFs16 : FileSystem := ⟨[("hello.xpak", helloArchive 16)]⟩

/-- The archive whose hash record gives the size of the compressed span, 144. -/
def helloFs144 : FileSystem := ⟨[("hello.xpak", helloArchive 144)]⟩

end Fixture

/-- The cursor behind a block of `blockSize` bytes that starts at `pos`, when the next
command is read: behind the block, and in the ModernWarfare4 revision behind the advance
of line 224 as well. -/
def cursorBehind (GameID : SupportedGames) (pos blockSize : Nat) : Nat :=
  if GameID = SupportedGames.ModernWarfare4 then add64 (pos + blockSize) (blockAdvance blockSize)
  else pos + blockSize

/-- A stream of one block header with two commands, a block of the unknown flag 0xF with
the 10 bytes `junk` and a raw block with the 4 bytes "DATA"; in the revision aligned to
4 bytes the first block is followed by its padding. -/
def unknownThenRaw (GameID : SupportedGames) (junk : List UInt8) : List UInt8 :=
  blockHeaderBytes [commandWord 0xF 10, commandWord 0 4] ++ junk ++ blockPadding GameID 10 ++
    [68, 65, 84, 65]

/-- The accounting of the decoder for an output of `decompressedSize` bytes: the write
cursor and the budget are `size_t` values whose sum is the decompressed size modulo
2^64. -/
def Accounted (decompressedSize : Nat) (st : DecodeState) : Prop :=
  st.resultSize < 2 ^ 64 ∧ st.remaining < 2 ^ 64 ∧
    (st.resultSize + st.remaining) % 2 ^ 64 = decompressedSize % 2 ^ 64

namespace Fixture

/-- An archive of version 0xD that ends inside the second part of its header, 336 bytes:
the first 24 bytes of the header, 96 bytes with the hash count 1 and the hash offset 120,
one hash record for the key 0xAA, 168 bytes 0xEE, and at offset 312 the first 24 bytes
of the second part (file count 1, data offset 432, data size 0). -/
def shortVariantArchive : List UInt8 :=
  le32 0x4950414b ++ [0, 0] ++ [0x0D, 0] ++ List.replicate 16 0 ++
    (le64 0 ++ le64 0 ++ le64 0 ++ le64 1 ++ le64 120 ++ List.replicate 56 0) ++
    record 0xAA 0 0 ++
    List.replicate 168 0xEE ++
    (le64 1 ++ le64 432 ++ le64 0)

/-- A file system with the short archive of version 0xD. -/
def shortVariantFs : FileSystem := ⟨[("short.xpak", shortVariantArchive)]⟩

end Fixture

/-! ## The index as a map -/

theorem CacheMap.find_cons (k : Nat) (v : PackageCacheObject) (rest : CacheMap) (key : Nat) :
    CacheMap.find ((k, v) :: rest) key = if k = key then some v else CacheMap.find rest key :=
  rfl

theorem CacheMap.find_nil (key : Nat) : CacheMap.find [] key = none := rfl

theorem CacheMap.find_append (m m2 : CacheMap) (key : Nat) :
    CacheMap.find (m ++ m2) key =
      match CacheMap.find m key with
      | some v => some v
      | none => CacheMap.find m2 key := by
  induction m with
  | nil => rfl
  | cons p rest ih =>
    obtain ⟨k, v⟩ := p
    rw [List.cons_append, CacheMap.find_cons, CacheMap.find_cons]
    by_cases h : k = key
    · simp only [h, if_true]
    · simp only [h, if_false]
      exact ih

theorem CacheMap.find_insert (m : CacheMap) (k key : Nat) (v : PackageCacheObject) :
    CacheMap.find (CacheMap.insert m k v) key =
      match CacheMap.find m key with
      | some w => some w
      | none => if k = key then some v else none := by
  unfold CacheMap.insert
  cases hk : CacheMap.find m k with
  | some w =>
    simp only
    cases hkey : CacheMap.find m key with
    | some w2 => rfl
    | none =>
      by_cases h : k = key
      · rw [h, hkey] at hk; cases hk
      · simp only [h, if_false]
  | none =>
    simp only
    rw [CacheMap.find_append]
    cases hkey : CacheMap.find m key with
    | some w2 => rfl
    | none => simp only [CacheMap.find_cons, CacheMap.find_nil]

/-! ## The file reader -/

theorem CoDFileHandle.Read_fst (r : CoDFileHandle) (n : Nat) :
    (r.Read n).1 = r.Available n ++ (List.replicate n 0).drop (r.Available n).length := by
  simp [CoDFileHandle.Read, CoDFileHandle.ReadInto]

theorem CoDFileHandle.ReadInto_bytes (r : CoDFileHandle) (buffer : List UInt8) (off n : Nat) :
    (r.ReadInto buffer off n).2.Bytes = r.Bytes := rfl

theorem CoDFileHandle.Read_bytes (r : CoDFileHandle) (n : Nat) :
    (r.Read n).2.Bytes = r.Bytes := rfl

theorem CoDFileHandle.Read_position (r : CoDFileHandle) (n : Nat) :
    (r.Read n).2.Position = r.Position + (r.Available n).length := rfl

theorem readHeader_bytes (r : CoDFileHandle) : (readHeader r).2.Bytes = r.Bytes := by
  unfold readHeader
  by_cases h : BO3XPakHeader.Version ⟨(r.Read 120).1⟩ = 0xD
  · simp only [h, if_true]; rfl
  · simp only [h, if_false]; rfl

theorem drop_length_take {α : Type} (l : List α) (n : Nat) :
    l.drop (l.take n).length = l.drop n := by
  rw [List.length_take]
  by_cases h : n ≤ l.length
  · rw [Nat.min_eq_left h]
  · have h1 : l.length ≤ n := by omega
    rw [Nat.min_eq_right h1, List.drop_length, List.drop_eq_nil_of_le h1]

theorem StandsAt.read (r : CoDFileHandle) (q : Nat) (h : StandsAt r q) :
    (r.Read 24).1 = recordAt r.Bytes q 0 := by
  rw [CoDFileHandle.Read_fst]
  unfold CoDFileHandle.Available recordAt
  unfold StandsAt at h
  rw [h, Nat.mul_zero, Nat.add_zero]

theorem StandsAt.next (r : CoDFileHandle) (q : Nat) (h : StandsAt r q) :
    StandsAt (r.Read 24).2 (q + 24) := by
  unfold StandsAt at *
  rw [CoDFileHandle.Read_bytes, CoDFileHandle.Read_position]
  unfold CoDFileHandle.Available
  rw [← List.drop_drop, drop_length_take, h, List.drop_drop]

/-! ## The loop over the hash table -/

theorem loadEntries_add (Header : BO3XPakHeader) (idx a b : Nat)
    (st : CoDFileHandle × CacheMap) :
    loadEntries Header idx (a + b) st = loadEntries Header idx b (loadEntries Header idx a st) := by
  induction a generalizing st with
  | zero => rw [Nat.zero_add]; rfl
  | succ a ih =>
    have : a + 1 + b = (a + b) + 1 := by omega
    rw [this]
    show loadEntries Header idx (a + b) (loadEntry Header idx st) = _
    rw [ih]
    rfl

theorem loadEntries_succ (Header : BO3XPakHeader) (idx n : Nat)
    (st : CoDFileHandle × CacheMap) :
    loadEntries Header idx (n + 1) st = loadEntry Header idx (loadEntries Header idx n st) := by
  rw [loadEntries_add]
  rfl

/-- The reader after `n` records stands at the start of record `n`. -/
theorem loadEntries_reader (Header : BO3XPakHeader) (idx n : Nat) (r : CoDFileHandle)
    (m : CacheMap) (q : Nat) (h : StandsAt r q) :
    (loadEntries Header idx n (r, m)).1.Bytes = r.Bytes ∧
      StandsAt (loadEntries Header idx n (r, m)).1 (q + 24 * n) := by
  induction n with
  | zero => exact ⟨rfl, h⟩
  | succ n ih =>
    rw [loadEntries_succ]
    obtain ⟨hb, hs⟩ := ih
    refine ⟨?_, ?_⟩
    · show ((loadEntries Header idx n (r, m)).1.Read 24).2.Bytes = _
      rw [CoDFileHandle.Read_bytes, hb]
    · have := StandsAt.next _ _ hs
      have e : q + 24 * (n + 1) = q + 24 * n + 24 := by ring
      rw [e]
      exact this

/-- The record the loop reads in turn `n`. -/
theorem loadEntries_record (Header : BO3XPakHeader) (idx n : Nat) (r : CoDFileHandle)
    (m : CacheMap) (q : Nat) (h : StandsAt r q) :
    ((loadEntries Header idx n (r, m)).1.Read 24).1 = recordAt r.Bytes q n := by
  obtain ⟨hb, hs⟩ := loadEntries_reader Header idx n r m q h
  rw [StandsAt.read _ _ hs, hb]
  unfold recordAt
  simp only [Nat.mul_zero, Nat.add_zero]

/-- The index after turn `n` of the loop. -/
theorem loadEntries_step (Header : BO3XPakHeader) (idx n : Nat) (r : CoDFileHandle)
    (m : CacheMap) (q : Nat) (h : StandsAt r q) :
    (loadEntries Header idx (n + 1) (r, m)).2 =
      CacheMap.insert (loadEntries Header idx n (r, m)).2
        (BO3XPakHashEntry.Key ⟨recordAt r.Bytes q n⟩)
        (NewObject Header idx ⟨recordAt r.Bytes q n⟩) := by
  rw [loadEntries_succ]
  show CacheMap.insert _ (BO3XPakHashEntry.Key ⟨((loadEntries Header idx n (r, m)).1.Read 24).1⟩)
    (NewObject Header idx ⟨((loadEntries Header idx n (r, m)).1.Read 24).1⟩) = _
  rw [loadEntries_record Header idx n r m q h]

/-- First wins: an entry of the index survives the loop. -/
theorem loadEntries_keeps (Header : BO3XPakHeader) (idx n : Nat) (r : CoDFileHandle)
    (m : CacheMap) (K : Nat) (v : PackageCacheObject) (h : CacheMap.find m K = some v) :
    CacheMap.find (loadEntries Header idx n (r, m)).2 K = some v := by
  induction n with
  | zero => exact h
  | succ n ih =>
    rw [loadEntries_succ]
    show CacheMap.find (CacheMap.insert _ _ _) K = _
    rw [CacheMap.find_insert, ih]

/-- A key that neither the index nor the first `n` records have is not indexed after
`n` turns. -/
theorem loadEntries_absent (Header : BO3XPakHeader) (idx n : Nat) (r : CoDFileHandle)
    (m : CacheMap) (q K : Nat) (hq : StandsAt r q) (h : CacheMap.find m K = none)
    (hk : ∀ j, j < n → BO3XPakHashEntry.Key ⟨recordAt r.Bytes q j⟩ ≠ K) :
    CacheMap.find (loadEntries Header idx n (r, m)).2 K = none := by
  induction n with
  | zero => exact h
  | succ n ih =>
    rw [loadEntries_step Header idx n r m q hq, CacheMap.find_insert,
      ih (fun j hj => hk j (Nat.lt_succ_of_lt hj))]
    simp only [hk n (Nat.lt_succ_self n), if_false]

/-- A key that is not indexed when record `i` is read is indexed with the entry of that
record from then on. -/
theorem loadEntries_inserts (Header : BO3XPakHeader) (idx n i : Nat) (r : CoDFileHandle)
    (m : CacheMap) (q : Nat) (hq : StandsAt r q) (hi : i < n)
    (h : CacheMap.find (loadEntries Header idx i (r, m)).2
          (BO3XPakHashEntry.Key ⟨recordAt r.Bytes q i⟩) = none) :
    CacheMap.find (loadEntries Header idx n (r, m)).2
        (BO3XPakHashEntry.Key ⟨recordAt r.Bytes q i⟩) =
      some (NewObject Header idx ⟨recordAt r.Bytes q i⟩) := by
  have hn : n = (i + 1) + (n - (i + 1)) := by omega
  rw [hn, loadEntries_add]
  have hstep : CacheMap.find (loadEntries Header idx (i + 1) (r, m)).2
      (BO3XPakHashEntry.Key ⟨recordAt r.Bytes q i⟩) =
      some (NewObject Header idx ⟨recordAt r.Bytes q i⟩) := by
    rw [loadEntries_step Header idx i r m q hq, CacheMap.find_insert, h]
    simp only [if_true]
  exact loadEntries_keeps Header idx _ _ _ _ _ hstep

/-- Every entry of the index after the loop was there before or is the entry of one of
the records. -/
theorem loadEntries_origin (Header : BO3XPakHeader) (idx n : Nat) (r : CoDFileHandle)
    (m : CacheMap) (q K : Nat) (e : PackageCacheObject) (hq : StandsAt r q)
    (h : CacheMap.find (loadEntries Header idx n (r, m)).2 K = some e) :
    CacheMap.find m K = some e ∨
      ∃ i, i < n ∧ BO3XPakHashEntry.Key ⟨recordAt r.Bytes q i⟩ = K ∧
        e = NewObject Header idx ⟨recordAt r.Bytes q i⟩ := by
  induction n with
  | zero => exact Or.inl h
  | succ n ih =>
    rw [loadEntries_step Header idx n r m q hq, CacheMap.find_insert] at h
    cases hf : CacheMap.find (loadEntries Header idx n (r, m)).2 K with
    | some w =>
      rw [hf] at h
      rcases ih (hf.trans h) with h1 | ⟨i, hi, hk, he⟩
      · exact Or.inl h1
      · exact Or.inr ⟨i, Nat.lt_succ_of_lt hi, hk, he⟩
    | none =>
      rw [hf] at h
      by_cases hk : BO3XPakHashEntry.Key ⟨recordAt r.Bytes q n⟩ = K
      · simp only [hk, if_true, Option.some.injEq] at h
        exact Or.inr ⟨n, Nat.lt_succ_self n, hk, h.symm⟩
      · simp only [hk, if_false] at h
        cases h

/-! ## LoadPackage unfolded -/

theorem LoadPackage_eq (fs : FileSystem) (c : XPAKCache) (path : String) :
    LoadPackage fs c path =
      if acceptsHeader fs path = true then
        (true, { c with
          CacheObjects := (loadEntries (archiveHeader fs path)
            (c.PackageFilePaths.length % 2 ^ 32) (archiveHeader fs path).HashCount
            (hashReader fs path, c.CacheObjects)).2,
          PackageFilePaths := c.PackageFilePaths ++ [path] })
      else (false, c) := rfl

theorem hashReader_bytes (fs : FileSystem) (path : String) :
    (hashReader fs path).Bytes = archiveBytes fs path := by
  unfold hashReader archiveBytes
  show (readHeader (CoDFileHandle.Open fs path)).2.Bytes = _
  rw [readHeader_bytes]

theorem hashReader_stands (fs : FileSystem) (path : String) :
    StandsAt (hashReader fs path) (archiveHeader fs path).HashOffset := rfl

theorem acceptsHeader_iff (fs : FileSystem) (path : String) :
    acceptsHeader fs path = true ↔
      (archiveHeader fs path).Magic = 0x4950414b ∧
        (archiveHeader fs path).HashOffset < (archiveBytes fs path).length := by
  unfold acceptsHeader validHeader
  rw [decide_eq_true_iff]
  show _ ∧ _ < (readHeader (CoDFileHandle.Open fs path)).2.Bytes.length ↔ _
  rw [readHeader_bytes]
  rfl

theorem LoadPackage_accepts (fs : FileSystem) (c : XPAKCache) (path : String) :
    (LoadPackage fs c path).1 = acceptsHeader fs path := by
  rw [LoadPackage_eq]
  cases acceptsHeader fs path <;> rfl

theorem LoadPackage_rejected (fs : FileSystem) (c : XPAKCache) (path : String)
    (h : acceptsHeader fs path = false) : (LoadPackage fs c path).2 = c := by
  rw [LoadPackage_eq, h]
  rfl

theorem LoadPackage_objects (fs : FileSystem) (c : XPAKCache) (path : String)
    (h : acceptsHeader fs path = true) :
    (LoadPackage fs c path).2.CacheObjects =
      (loadEntries (archiveHeader fs path) (c.PackageFilePaths.length % 2 ^ 32)
        (archiveHeader fs path).HashCount (hashReader fs path, c.CacheObjects)).2 := by
  rw [LoadPackage_eq, h]
  rfl

theorem LoadPackage_paths (fs : FileSystem) (c : XPAKCache) (path : String)
    (h : acceptsHeader fs path = true) :
    (LoadPackage fs c path).2.PackageFilePaths = c.PackageFilePaths ++ [path] := by
  rw [LoadPackage_eq, h]
  rfl

/-- First wins across loads: an entry of the index survives a call of `LoadPackage`. -/
theorem LoadPackage_keeps (fs : FileSystem) (c : XPAKCache) (path : String) (K : Nat)
    (v : PackageCacheObject) (h : CacheMap.find c.CacheObjects K = some v) :
    CacheMap.find (LoadPackage fs c path).2.CacheObjects K = some v := by
  cases ha : acceptsHeader fs path with
  | false => rw [LoadPackage_rejected fs c path ha]; exact h
  | true =>
    rw [LoadPackage_objects fs c path ha]
    exact loadEntries_keeps _ _ _ _ _ _ _ h

/-- What `LoadPackage` indexes a record under when its key is new. -/
theorem LoadPackage_inserts (fs : FileSystem) (c : XPAKCache) (path : String) (i : Nat)
    (ha : acceptsHeader fs path = true) (hi : i < (archiveHeader fs path).HashCount)
    (hnew : CacheMap.find c.CacheObjects (hashRecord fs path i).Key = none)
    (hfirst : ∀ j, j < i → (hashRecord fs path j).Key ≠ (hashRecord fs path i).Key) :
    CacheMap.find (LoadPackage fs c path).2.CacheObjects (hashRecord fs path i).Key =
      some (NewObject (archiveHeader fs path) (c.PackageFilePaths.length % 2 ^ 32)
        (hashRecord fs path i)) := by
  rw [LoadPackage_objects fs c path ha]
  have hq := hashReader_stands fs path
  have habs := loadEntries_absent (archiveHeader fs path) (c.PackageFilePaths.length % 2 ^ 32)
    i (hashReader fs path) c.CacheObjects _ (hashRecord fs path i).Key hq hnew
  have hins := loadEntries_inserts (archiveHeader fs path)
    (c.PackageFilePaths.length % 2 ^ 32) (archiveHeader fs path).HashCount i
    (hashReader fs path) c.CacheObjects _ hq hi
  rw [hashReader_bytes] at habs hins
  exact hins (habs hfirst)

theorem mask56 (x : Nat) : x &&& 0xFFFFFFFFFFFFFF = x % 2 ^ 56 :=
  Nat.and_pow_two_sub_one_eq_mod x 56

/-! ## First wins, validation, decoding of a record -/

/-- C1 (first wins). Archive `A1` is loaded, then archive `A2`, by `LoadPackage`; `K` is a
key the index does not hold before, and record `i` is the first record of the hash
table of `A1` with key `K`. After both loads the index holds under `K` the entry
decoded from that record of `A1` (offset, masked size, and the index of `A1` in the
path list), whatever the hash table of `A2` holds under `K`, and whatever later
records of `A1` repeat `K`. -/
theorem C1_first_wins (fs : FileSystem) (c : XPAKCache) (A1 A2 : String) (K i : Nat)
    (hvalid : (LoadPackage fs c A1).1 = true)
    (hfresh : CacheMap.find c.CacheObjects K = none)
    (hi : i < (archiveHeader fs A1).HashCount)
    (hkey : (hashRecord fs A1 i).Key = K)
    (hfirst : ∀ j, j < i → (hashRecord fs A1 j).Key ≠ K) :
    CacheMap.find (LoadPackage fs (LoadPackage fs c A1).2 A2).2.CacheObjects K =
      some (NewObject (archiveHeader fs A1) (c.PackageFilePaths.length % 2 ^ 32)
        (hashRecord fs A1 i)) := by
  rw [LoadPackage_accepts] at hvalid
  subst hkey
  exact LoadPackage_keeps fs _ A2 _ _ (LoadPackage_inserts fs c A1 i hvalid hi hfresh hfirst)

/-- C1 on two archives that both hold the key 0xAA, the first of them twice: the index
keeps the first record of the first archive. -/
theorem C1_first_wins_witness :
    (∃ j, j < (archiveHeader Fixture.collidingFs "b.xpak").HashCount ∧
      (hashRecord Fixture.collidingFs "b.xpak" j).Key = 0xAA) ∧
    (hashRecord Fixture.collidingFs "a.xpak" 2).Key = 0xAA ∧
    CacheMap.find (LoadPackage Fixture.collidingFs
        (LoadPackage Fixture.collidingFs XPAKCache.empty "a.xpak").2 "b.xpak").2.CacheObjects
        0xAA =
      some { Offset := 128, CompressedSize := 16, UncompressedSize := 0,
             PackageFileIndex := 0 } :=
  ⟨⟨1, by decide!, by decide!⟩, by decide!,
    (C1_first_wins Fixture.collidingFs XPAKCache.empty "a.xpak" "b.xpak" 0xAA 0
      (by decide!) (by decide!) (by decide!) (by decide!)
      (fun j hj => absurd hj (Nat.not_lt_zero j))).trans (by decide!)⟩

/-- C2. `LoadPackage` returns true exactly when the magic of the header is 0x4950414b and
its `HashOffset` is below the size of the file; when it returns false the cache (index
and path list) is what it was. -/
theorem C2_LoadPackage_succeeds_iff (fs : FileSystem) (c : XPAKCache) (path : String) :
    ((LoadPackage fs c path).1 = true ↔
      (archiveHeader fs path).Magic = 0x4950414b ∧
        (archiveHeader fs path).HashOffset < (archiveBytes fs path).length) ∧
    ((LoadPackage fs c path).1 = false → (LoadPackage fs c path).2 = c) := by
  rw [LoadPackage_accepts]
  exact ⟨acceptsHeader_iff fs path, LoadPackage_rejected fs c path⟩

/-- C3. For a valid archive and a record `i` of its `HashCount` hash records whose key is
not indexed when the record is read (the index does not hold it before the load and no
earlier record of the table has it), `LoadPackage` indexes under the key of the record
the entry with offset `DataOffset + Offset` modulo 2^64, compressed size `Size` modulo
2^56, uncompressed size 0, owned by the archive being loaded. -/
theorem C3_entry_of_record (fs : FileSystem) (c : XPAKCache) (path : String) (i : Nat)
    (hvalid : (LoadPackage fs c path).1 = true)
    (hi : i < (archiveHeader fs path).HashCount)
    (hnew : CacheMap.find c.CacheObjects (hashRecord fs path i).Key = none)
    (hfirst : ∀ j, j < i → (hashRecord fs path j).Key ≠ (hashRecord fs path i).Key) :
    CacheMap.find (LoadPackage fs c path).2.CacheObjects (hashRecord fs path i).Key =
      some { Offset := ((archiveHeader fs path).DataOffset + (hashRecord fs path i).Offset)
                         % 2 ^ 64,
             CompressedSize := (hashRecord fs path i).Size % 2 ^ 56,
             UncompressedSize := 0,
             PackageFileIndex := c.PackageFilePaths.length % 2 ^ 32 } := by
  rw [LoadPackage_accepts] at hvalid
  rw [LoadPackage_inserts fs c path i hvalid hi hnew hfirst]
  unfold NewObject add64
  rw [mask56]

/-- C3 on the second record of an archive, whose size field has its top bit set: the
entry keeps the low 56 bits. -/
theorem C3_entry_of_record_witness :
    (hashRecord Fixture.collidingFs "a.xpak" 1).Size = 2 ^ 63 + 5 ∧
    CacheMap.find (LoadPackage Fixture.collidingFs XPAKCache.empty "a.xpak").2.CacheObjects
        0xBB =
      some { Offset := 144, CompressedSize := 5, UncompressedSize := 0,
             PackageFileIndex := 0 } :=
  ⟨by decide!,
    (C3_entry_of_record Fixture.collidingFs XPAKCache.empty "a.xpak" 1
      (by decide!) (by decide!) (by decide!) (by decide!)).trans (by decide!)⟩

/-! ## Sequences of loads -/

theorem loadFiles_cons (fs : FileSystem) (c : XPAKCache) (p : String) (ps : List String) :
    loadFiles fs c (p :: ps) = loadFiles fs (LoadPackage fs c p).2 ps := rfl

theorem loadFiles_append (fs : FileSystem) (c : XPAKCache) (ps qs : List String) :
    loadFiles fs c (ps ++ qs) = loadFiles fs (loadFiles fs c ps) qs := by
  unfold loadFiles
  rw [List.foldl_append]

/-- Archives with an invalid header leave no trace in a sequence of loads. -/
theorem loadFiles_filter (fs : FileSystem) (c : XPAKCache) (names : List String) :
    loadFiles fs c names = loadFiles fs c (names.filter (acceptsHeader fs)) := by
  induction names generalizing c with
  | nil => rfl
  | cons p ps ih =>
    cases ha : acceptsHeader fs p with
    | false =>
      rw [List.filter_cons_of_neg (by simp [ha]), loadFiles_cons,
        LoadPackage_rejected fs c p ha]
      exact ih c
    | true =>
      rw [List.filter_cons_of_pos ha, loadFiles_cons, loadFiles_cons]
      exact ih _

theorem loadFiles_keeps (fs : FileSystem) (c : XPAKCache) (names : List String) (K : Nat)
    (v : PackageCacheObject) (h : CacheMap.find c.CacheObjects K = some v) :
    CacheMap.find (loadFiles fs c names).CacheObjects K = some v := by
  induction names generalizing c with
  | nil => exact h
  | cons p ps ih =>
    rw [loadFiles_cons]
    exact ih _ (LoadPackage_keeps fs c p K v h)

/-- The key of every record the loop has read is indexed. -/
theorem loadEntries_present (Header : BO3XPakHeader) (idx n i : Nat) (r : CoDFileHandle)
    (m : CacheMap) (q : Nat) (hq : StandsAt r q) (hi : i < n) :
    ∃ v, CacheMap.find (loadEntries Header idx n (r, m)).2
      (BO3XPakHashEntry.Key ⟨recordAt r.Bytes q i⟩) = some v := by
  have hn : n = (i + 1) + (n - (i + 1)) := by omega
  have hstep : ∃ v, CacheMap.find (loadEntries Header idx (i + 1) (r, m)).2
      (BO3XPakHashEntry.Key ⟨recordAt r.Bytes q i⟩) = some v := by
    rw [loadEntries_step Header idx i r m q hq, CacheMap.find_insert]
    cases CacheMap.find (loadEntries Header idx i (r, m)).2
        (BO3XPakHashEntry.Key ⟨recordAt r.Bytes q i⟩) with
    | some w => exact ⟨w, rfl⟩
    | none => exact ⟨NewObject Header idx ⟨recordAt r.Bytes q i⟩, by simp only [if_true]⟩
  obtain ⟨v, hv⟩ := hstep
  rw [hn, loadEntries_add]
  exact ⟨v, loadEntries_keeps Header idx _ _ _ _ _ hv⟩

theorem LoadPackage_present (fs : FileSystem) (c : XPAKCache) (path : String) (i : Nat)
    (ha : acceptsHeader fs path = true) (hi : i < (archiveHeader fs path).HashCount) :
    ∃ v, CacheMap.find (LoadPackage fs c path).2.CacheObjects (hashRecord fs path i).Key =
      some v := by
  rw [LoadPackage_objects fs c path ha]
  have h := loadEntries_present (archiveHeader fs path) (c.PackageFilePaths.length % 2 ^ 32)
    (archiveHeader fs path).HashCount i (hashReader fs path) c.CacheObjects _
    (hashReader_stands fs path) hi
  rw [hashReader_bytes] at h
  exact h

theorem loadFiles_present (fs : FileSystem) (c : XPAKCache) (names : List String)
    (path : String) (i : Nat) (hp : path ∈ names) (ha : acceptsHeader fs path = true)
    (hi : i < (archiveHeader fs path).HashCount) :
    ∃ v, CacheMap.find (loadFiles fs c names).CacheObjects (hashRecord fs path i).Key =
      some v := by
  induction names generalizing c with
  | nil => cases hp
  | cons p ps ih =>
    rw [loadFiles_cons]
    rcases List.mem_cons.mp hp with h | h
    · subst h
      obtain ⟨v, hv⟩ := LoadPackage_present fs c path i ha hi
      exact ⟨v, loadFiles_keeps fs _ ps _ v hv⟩
    · exact ih _ h

/-- C5 (skip and continue). The cache `LoadPackageCache` builds from the enumerated files
is the cache built from those of them that have a valid header, in the same order; and
the key of every hash record of every enumerated archive with a valid header is indexed
afterwards, whatever invalid archives come before or after it. -/
theorem C5_skip_and_continue (fs : FileSystem) (c : XPAKCache) :
    LoadPackageCache fs c =
      { loadFiles fs c ((fs.EnumerateFiles "*.xpak").filter (acceptsHeader fs))
        with Loaded := true } ∧
    ∀ path i, path ∈ fs.EnumerateFiles "*.xpak" → acceptsHeader fs path = true →
      i < (archiveHeader fs path).HashCount →
      (CacheMap.find (LoadPackageCache fs c).CacheObjects
        (hashRecord fs path i).Key).isSome = true := by
  refine ⟨?_, ?_⟩
  · unfold LoadPackageCache
    rw [← loadFiles_filter]
  · intro path i hp ha hi
    obtain ⟨v, hv⟩ := loadFiles_present fs c (fs.EnumerateFiles "*.xpak") path i hp ha hi
    show (CacheMap.find (loadFiles fs c (fs.EnumerateFiles "*.xpak")).CacheObjects _).isSome
      = true
    rw [hv]
    rfl

/-- C5 on a directory whose second file is no archive: the archive enumerated after it is
indexed all the same. -/
theorem C5_skip_and_continue_witness :
    Fixture.collidingFs.EnumerateFiles "*.xpak" = ["a.xpak", "junk.xpak", "b.xpak"] ∧
    acceptsHeader Fixture.collidingFs "junk.xpak" = false ∧
    (hashRecord Fixture.collidingFs "b.xpak" 0).Key = 0xCC ∧
    (CacheMap.find (LoadPackageCache Fixture.collidingFs XPAKCache.empty).CacheObjects
      0xCC).isSome = true :=
  ⟨by decide!, by decide!, by decide!,
    (C5_skip_and_continue Fixture.collidingFs XPAKCache.empty).2 "b.xpak" 0
      (by decide!) (by decide!) (by decide!)⟩

/-! ## The owner of an entry -/

theorem Owned_empty (fs : FileSystem) : Owned fs XPAKCache.empty := by
  intro K e h
  cases h

theorem LoadPackage_origin (fs : FileSystem) (c : XPAKCache) (path : String) (K : Nat)
    (e : PackageCacheObject) (ha : acceptsHeader fs path = true)
    (h : CacheMap.find (LoadPackage fs c path).2.CacheObjects K = some e) :
    CacheMap.find c.CacheObjects K = some e ∨
      ∃ i, i < (archiveHeader fs path).HashCount ∧ (hashRecord fs path i).Key = K ∧
        e = NewObject (archiveHeader fs path) (c.PackageFilePaths.length % 2 ^ 32)
          (hashRecord fs path i) := by
  rw [LoadPackage_objects fs c path ha] at h
  have := loadEntries_origin _ _ _ _ _ _ K e (hashReader_stands fs path) h
  rw [hashReader_bytes] at this
  exact this

theorem LoadPackage_owned (fs : FileSystem) (c : XPAKCache) (path : String)
    (h : Owned fs c) : Owned fs (LoadPackage fs c path).2 := by
  cases ha : acceptsHeader fs path with
  | false => rw [LoadPackage_rejected fs c path ha]; exact h
  | true =>
    intro K e hf
    rw [LoadPackage_paths fs c path ha]
    rcases LoadPackage_origin fs c path K e ha hf with h1 | ⟨i, hi, hk, he⟩
    · obtain ⟨n, owner, i, hn, hrest⟩ := h K e h1
      refine ⟨n, owner, i, ?_, hrest⟩
      have hlt : n < c.PackageFilePaths.length := by
        by_contra hge
        rw [List.getElem?_eq_none (by omega)] at hn
        cases hn
      rw [List.getElem?_append_left hlt]
      exact hn
    · have hidx : e.PackageFileIndex = c.PackageFilePaths.length % 2 ^ 32 := by
        rw [he]; rfl
      refine ⟨c.PackageFilePaths.length, path, i, ?_, hidx, ha, hi, hk, ?_⟩
      · rw [List.getElem?_append_right (Nat.le_refl _)]
        simp
      · rw [hidx]; exact he

theorem loadFiles_owned (fs : FileSystem) (c : XPAKCache) (names : List String)
    (h : Owned fs c) : Owned fs (loadFiles fs c names) := by
  induction names generalizing c with
  | nil => exact h
  | cons p ps ih => rw [loadFiles_cons]; exact ih _ (LoadPackage_owned fs c p h)

theorem loadFiles_paths (fs : FileSystem) (c : XPAKCache) (names : List String) :
    (loadFiles fs c names).PackageFilePaths =
      c.PackageFilePaths ++ names.filter (acceptsHeader fs) := by
  induction names generalizing c with
  | nil => simp [loadFiles]
  | cons p ps ih =>
    rw [loadFiles_cons, ih]
    cases ha : acceptsHeader fs p with
    | false =>
      rw [LoadPackage_rejected fs c p ha, List.filter_cons_of_neg (by simp [ha])]
    | true =>
      rw [LoadPackage_paths fs c p ha, List.filter_cons_of_pos ha, List.append_assoc]
      rfl

/-- C4, as amended. After any sequence of `LoadPackage` calls from an empty cache the path
list is the list of the successfully loaded paths in load order; and when at most 2^32
loads succeeded, the owner index of every entry of the index is a position of the path
list, and the archive at the path there has a hash record with the key of the entry
from which the entry is decoded. -/
theorem C4_owner_invariant (fs : FileSystem) (paths : List String) :
    (loadFiles fs XPAKCache.empty paths).PackageFilePaths = paths.filter (acceptsHeader fs) ∧
    ((paths.filter (acceptsHeader fs)).length ≤ 2 ^ 32 →
      ∀ K e, CacheMap.find (loadFiles fs XPAKCache.empty paths).CacheObjects K = some e →
        ∃ owner i,
          (loadFiles fs XPAKCache.empty paths).PackageFilePaths[e.PackageFileIndex]? =
            some owner ∧
          acceptsHeader fs owner = true ∧ i < (archiveHeader fs owner).HashCount ∧
          (hashRecord fs owner i).Key = K ∧
          e = NewObject (archiveHeader fs owner) e.PackageFileIndex
                (hashRecord fs owner i)) := by
  have hp : (loadFiles fs XPAKCache.empty paths).PackageFilePaths =
      paths.filter (acceptsHeader fs) := by
    rw [loadFiles_paths]; rfl
  refine ⟨hp, ?_⟩
  intro hlen K e hf
  obtain ⟨n, owner, i, hn, hidx, hrest⟩ :=
    loadFiles_owned fs XPAKCache.empty paths (Owned_empty fs) K e hf
  have hlt : n < (loadFiles fs XPAKCache.empty paths).PackageFilePaths.length := by
    by_contra hge
    rw [List.getElem?_eq_none (by omega)] at hn
    cases hn
  rw [hp] at hlt
  have hmod : n % 2 ^ 32 = n := Nat.mod_eq_of_lt (by omega)
  rw [hmod] at hidx
  refine ⟨owner, i, ?_, hrest⟩
  rw [hidx]
  exact hn

/-- C4 on two archives loaded one after the other. -/
theorem C4_owner_invariant_witness :
    ((["a.xpak", "junk.xpak", "b.xpak"] : List String).filter
      (acceptsHeader Fixture.collidingFs)).length ≤ 2 ^ 32 ∧
    CacheMap.find (loadFiles Fixture.collidingFs XPAKCache.empty
      ["a.xpak", "junk.xpak", "b.xpak"]).CacheObjects 0xCC =
      some { Offset := 120, CompressedSize := 1, UncompressedSize := 0,
             PackageFileIndex := 1 } ∧
    ∃ owner i,
      (loadFiles Fixture.collidingFs XPAKCache.empty
        ["a.xpak", "junk.xpak", "b.xpak"]).PackageFilePaths[1]? = some owner ∧
      acceptsHeader Fixture.collidingFs owner = true ∧
      i < (archiveHeader Fixture.collidingFs owner).HashCount ∧
      (hashRecord Fixture.collidingFs owner i).Key = 0xCC ∧
      ({ Offset := 120, CompressedSize := 1, UncompressedSize := 0,
         PackageFileIndex := 1 } : PackageCacheObject) =
        NewObject (archiveHeader Fixture.collidingFs owner) 1
          (hashRecord Fixture.collidingFs owner i) :=
  ⟨by decide!, by decide!,
    (C4_owner_invariant Fixture.collidingFs ["a.xpak", "junk.xpak", "b.xpak"]).2 (by decide!)
      0xCC { Offset := 120, CompressedSize := 1, UncompressedSize := 0, PackageFileIndex := 1 }
      (by decide!)⟩

theorem wrap_accepts_a : acceptsHeader Fixture.wrapFs "a.xpak" = true := by decide!

theorem wrap_count_a : (archiveHeader Fixture.wrapFs "a.xpak").HashCount = 0 := by decide!

theorem wrap_accepts_b : acceptsHeader Fixture.wrapFs "b.xpak" = true := by decide!

theorem wrap_count_b : (archiveHeader Fixture.wrapFs "b.xpak").HashCount = 1 := by decide!

theorem wrap_key_b : (hashRecord Fixture.wrapFs "b.xpak" 0).Key = 0xAA := by decide!

theorem loadFiles_singleton (fs : FileSystem) (c : XPAKCache) (p : String) :
    loadFiles fs c [p] = (LoadPackage fs c p).2 := rfl

/-- Loading the archive without records `n` times appends its path `n` times and leaves
the index alone. -/
theorem wrap_load_a (c : XPAKCache) (n : Nat) :
    loadFiles Fixture.wrapFs c (List.replicate n "a.xpak") =
      { c with PackageFilePaths := c.PackageFilePaths ++ List.replicate n "a.xpak" } := by
  induction n generalizing c with
  | zero => simp [loadFiles]
  | succ n ih =>
    rw [List.replicate_succ, loadFiles_cons, ih, LoadPackage_eq, wrap_accepts_a, wrap_count_a]
    simp [loadEntries, List.append_assoc]

/-- Loading the archive with the key 0xAA into a cache whose index does not hold the
key and whose path list has a length that is a multiple of 2^32 and starts with
"a.xpak". -/
theorem wrap_load_b (c : XPAKCache) (hc : CacheMap.find c.CacheObjects 0xAA = none)
    (hidx : c.PackageFilePaths.length % 2 ^ 32 = 0)
    (h0 : c.PackageFilePaths[0]? = some "a.xpak") :
    ∃ e, CacheMap.find (LoadPackage Fixture.wrapFs c "b.xpak").2.CacheObjects 0xAA = some e ∧
      e.PackageFileIndex = 0 ∧
      (LoadPackage Fixture.wrapFs c "b.xpak").2.PackageFilePaths[e.PackageFileIndex]? =
        some "a.xpak" := by
  have hfind := LoadPackage_inserts Fixture.wrapFs c "b.xpak" 0 wrap_accepts_b
    (by rw [wrap_count_b]; exact Nat.one_pos) (by rw [wrap_key_b]; exact hc)
    (fun j hj => absurd hj (Nat.not_lt_zero j))
  rw [wrap_key_b, hidx] at hfind
  refine ⟨_, hfind, rfl, ?_⟩
  rw [LoadPackage_paths _ _ _ wrap_accepts_b]
  have hlt : 0 < c.PackageFilePaths.length := by
    by_contra hge
    rw [List.getElem?_eq_none (by omega)] at h0
    cases h0
  show (c.PackageFilePaths ++ ["b.xpak"])[0]? = some "a.xpak"
  rw [List.getElem?_append_left hlt]
  exact h0

/-- The archive without records loaded `n` times, `n` a positive multiple of 2^32, then
the archive with the key 0xAA. -/
theorem wrap_loads (n : Nat) (hn : n % 2 ^ 32 = 0) (hpos : 0 < n) :
    ∃ e, CacheMap.find (loadFiles Fixture.wrapFs XPAKCache.empty
        (List.replicate n "a.xpak" ++ ["b.xpak"])).CacheObjects 0xAA = some e ∧
      e.PackageFileIndex = 0 ∧
      (loadFiles Fixture.wrapFs XPAKCache.empty
        (List.replicate n "a.xpak" ++ ["b.xpak"])).PackageFilePaths[e.PackageFileIndex]? =
        some "a.xpak" := by
  rw [loadFiles_append, wrap_load_a, loadFiles_singleton]
  apply wrap_load_b
  · rfl
  · show ([] ++ List.replicate n "a.xpak").length % 2 ^ 32 = 0
    rw [List.nil_append, List.length_replicate]
    exact hn
  · show ([] ++ List.replicate n "a.xpak")[0]? = some "a.xpak"
    rw [List.nil_append, List.getElem?_replicate, if_pos hpos]

/-- C4 as stated fails once the number of loaded archives passes 2^32. The archive
"a.xpak", which has no hash record, is loaded 2^32 times and then "b.xpak", which
holds the key 0xAA: the entry indexed under 0xAA, decoded from "b.xpak", has the
owner index 0 (the `uint32_t` cast of line 56 wraps), and position 0 of the path list
is "a.xpak". -/
theorem C4_counterexample :
    (hashRecord Fixture.wrapFs "b.xpak" 0).Key = 0xAA ∧
    (archiveHeader Fixture.wrapFs "a.xpak").HashCount = 0 ∧
    ∃ e, CacheMap.find (loadFiles Fixture.wrapFs XPAKCache.empty
        (List.replicate (2 ^ 32) "a.xpak" ++ ["b.xpak"])).CacheObjects 0xAA = some e ∧
      e.PackageFileIndex = 0 ∧
      (loadFiles Fixture.wrapFs XPAKCache.empty
        (List.replicate (2 ^ 32) "a.xpak" ++ ["b.xpak"])).PackageFilePaths[
          e.PackageFileIndex]? = some "a.xpak" :=
  ⟨wrap_key_b, wrap_count_a, wrap_loads (2 ^ 32) (Nat.mod_self _) (Nat.two_pow_pos 32)⟩

/-- C6. For a key the index does not hold, whatever the size hint and whatever the
caller's result size held, `ExtractPackageObject` returns no buffer and sets the result
size to 0; it opens no file and leaves the cache, the index with it, as it was. -/
theorem C6_absent_key (codecs : Codecs) (GameID : SupportedGames) (fs : FileSystem)
    (c : XPAKCache) (CacheID : Nat) (Size : Int) (ResultSize : Nat)
    (h : CacheMap.find c.CacheObjects CacheID = none) :
    ExtractPackageObject codecs GameID fs c CacheID Size ResultSize =
      { outcome := .returned none 0, cache := c, opened := [] } := by
  unfold ExtractPackageObject
  rw [h]
  rfl

/-- C6 on a cache of two archives and a key neither holds. -/
theorem C6_absent_key_witness :
    ExtractPackageObject Fixture.noCodecs SupportedGames.Other Fixture.collidingFs
        Fixture.collidingCache 0xDD (-1) 7 =
      { outcome := .returned none 0, cache := Fixture.collidingCache, opened := [] } :=
  C6_absent_key Fixture.noCodecs SupportedGames.Other Fixture.collidingFs
    Fixture.collidingCache 0xDD (-1) 7 (by decide!)

/-! ## ExtractPackageObject -/

theorem CacheMap.index_of_find (m : CacheMap) (key : Nat) (e : PackageCacheObject)
    (h : CacheMap.find m key = some e) : CacheMap.index m key = (e, m) := by
  unfold CacheMap.index
  rw [h]

/-- An indexed key whose archive opens: the call is the call of the dispatcher on the
compressed span, with the size hint converted to `size_t` as the decompressed size. -/
theorem ExtractPackageObject_dispatch (codecs : Codecs) (GameID : SupportedGames)
    (fs : FileSystem) (c : XPAKCache) (CacheID : Nat) (Size : Int) (ResultSize : Nat)
    (e : PackageCacheObject) (path : String) (bytes : List UInt8)
    (hfind : CacheMap.find c.CacheObjects CacheID = some e)
    (hpath : c.PackageFilePaths[e.PackageFileIndex]? = some path)
    (hopen : fs.OpenFile path = some bytes) :
    ExtractPackageObject codecs GameID fs c CacheID Size ResultSize =
      match DecompressPackageObject codecs GameID CacheID
          ((CoDFileHandle.mk (some bytes) e.Offset).Read e.CompressedSize).1
          (toSizeT Size) with
      | .returned outputBuffer ResultSizeSizeT =>
        { outcome := .returned outputBuffer (ResultSizeSizeT % 2 ^ 32), cache := c,
          opened := [path] }
      | o => { outcome := o, cache := c, opened := [path] } := by
  unfold ExtractPackageObject
  rw [hfind, CacheMap.index_of_find _ _ _ hfind]
  simp only [Option.isSome_some, if_true, hpath, CoDFileHandle.Open, hopen,
    CoDFileHandle.IsValid, CoDFileHandle.SeekSet]
  rfl

/-- An indexed key whose archive does not open: no buffer, and the caller's result size
is left as it was. -/
theorem ExtractPackageObject_unopenable (codecs : Codecs) (GameID : SupportedGames)
    (fs : FileSystem) (c : XPAKCache) (CacheID : Nat) (Size : Int) (ResultSize : Nat)
    (e : PackageCacheObject) (path : String)
    (hfind : CacheMap.find c.CacheObjects CacheID = some e)
    (hpath : c.PackageFilePaths[e.PackageFileIndex]? = some path)
    (hopen : fs.OpenFile path = none) :
    ExtractPackageObject codecs GameID fs c CacheID Size ResultSize =
      { outcome := .returned none ResultSize, cache := c, opened := [path] } := by
  unfold ExtractPackageObject
  rw [hfind, CacheMap.index_of_find _ _ _ hfind]
  simp only [Option.isSome_some, if_true, hpath, CoDFileHandle.Open, hopen,
    CoDFileHandle.IsValid]
  rfl

/-- The dispatcher on an empty input and a decompressed size that is not 0: the zeroed
output buffer, with result size 0. -/
theorem DecompressPackageObject_nil (codecs : Codecs) (GameID : SupportedGames)
    (cacheID n : Nat) (hn : n ≠ 0) :
    DecompressPackageObject codecs GameID cacheID [] n =
      .returned (some (List.replicate n 0)) 0 := by
  unfold DecompressPackageObject
  rw [if_neg hn]
  rfl

theorem toSizeT_neg_one : toSizeT (-1) = 2 ^ 64 - 1 := by decide

/-- C7 at a failing input: the key 0xAA is indexed with uncompressed size 0 and the size
hint is -1. The dispatcher is handed the hint itself, 2^64 - 1 as a `size_t`, not the
uncompressed size of the entry; it does not fail on an unknown size, but returns an
output buffer of 2^64 - 1 bytes. -/
theorem C7_hint_minus_one_is_passed_on :
    CacheMap.find (loadFiles Fixture.wrapFs XPAKCache.empty ["b.xpak"]).CacheObjects 0xAA =
      some { Offset := 120, CompressedSize := 0, UncompressedSize := 0,
             PackageFileIndex := 0 } ∧
    ExtractPackageObject Fixture.noCodecs SupportedGames.Other Fixture.wrapFs
        (loadFiles Fixture.wrapFs XPAKCache.empty ["b.xpak"]) 0xAA (-1) 0 =
      { outcome := .returned (some (List.replicate (2 ^ 64 - 1) 0)) 0,
        cache := loadFiles Fixture.wrapFs XPAKCache.empty ["b.xpak"],
        opened := ["b.xpak"] } := by
  have hfind : CacheMap.find
      (loadFiles Fixture.wrapFs XPAKCache.empty ["b.xpak"]).CacheObjects 0xAA =
      some { Offset := 120, CompressedSize := 0, UncompressedSize := 0,
             PackageFileIndex := 0 } := by decide!
  refine ⟨hfind, ?_⟩
  rw [ExtractPackageObject_dispatch Fixture.noCodecs SupportedGames.Other Fixture.wrapFs _
    0xAA (-1) 0 _ "b.xpak" (Fixture.indexOnly [Fixture.record 0xAA 0 0]) hfind
    (by decide!) (by decide!)]
  have hpayload : ((CoDFileHandle.mk (some (Fixture.indexOnly [Fixture.record 0xAA 0 0]))
      120).Read 0).1 = [] := by decide!
  simp only [hpayload, toSizeT_neg_one]
  rw [DecompressPackageObject_nil _ _ _ _ (by decide)]
  simp only [Nat.zero_mod]

/-- C8 at a failing input: the key 0xAA is indexed, its archive has been removed, and the
caller's result size holds 7 before the call. The call returns no buffer and the result
size still holds 7: line 120 returns without setting it. -/
theorem C8_result_size_is_not_reset :
    ExtractPackageObject Fixture.noCodecs SupportedGames.Other Fixture.emptyFs
        Fixture.collidingCache 0xAA 16 7 =
      { outcome := .returned none 7, cache := Fixture.collidingCache,
        opened := ["a.xpak"] } :=
  ExtractPackageObject_unopenable Fixture.noCodecs SupportedGames.Other Fixture.emptyFs
    Fixture.collidingCache 0xAA 16 7
    { Offset := 128, CompressedSize := 16, UncompressedSize := 0, PackageFileIndex := 0 }
    "a.xpak" (by decide!) (by decide!) (by decide!)

/-! ## Bit operations of the decoder as arithmetic -/

/-- Clearing the low `k` bits of a number below `2 ^ (k + m)` with a mask of `m` ones
above `k` zeros rounds it down to a multiple of `2 ^ k`. -/
theorem and_high_mask (x k m : Nat) (hx : x < 2 ^ (k + m)) :
    x &&& ((2 ^ m - 1) <<< k) = x / 2 ^ k * 2 ^ k := by
  apply Nat.eq_of_testBit_eq
  intro i
  rw [Nat.testBit_and, Nat.testBit_shiftLeft, Nat.testBit_two_pow_sub_one,
    ← Nat.shiftLeft_eq, ← Nat.shiftRight_eq_div_pow, Nat.testBit_shiftLeft,
    Nat.testBit_shiftRight]
  by_cases hik : k ≤ i
  · have e : k + (i - k) = i := by omega
    rw [e]
    by_cases him : i - k < m
    · simp [hik, him]
    · have hbig : x < 2 ^ i := by
        calc x < 2 ^ (k + m) := hx
          _ ≤ 2 ^ i := Nat.pow_le_pow_right (by decide) (by omega)
      simp [hik, him, Nat.testBit_lt_two_pow hbig]
  · simp [hik]

/-- The re-alignment of line 227 below the range of its mask: the next multiple of 128. -/
theorem realign_eq (p : Nat) (hp : p < 2 ^ 60 - 127) :
    alignPosition p = (p + 127) / 128 * 128 := by
  unfold alignPosition
  have h1 : (p + 0x7F) % 2 ^ 64 = p + 127 := Nat.mod_eq_of_lt (by omega)
  have h2 : (0xFFFFFFFFFFFFF80 : Nat) = (2 ^ 53 - 1) <<< 7 := by decide
  rw [h1, h2, and_high_mask (p + 127) 7 53 (by omega)]
  norm_num

/-- The padding of line 224 for a block size of 24 bits: up to the next multiple of 4. -/
theorem blockAdvance_eq (b : Nat) (hb : b < 2 ^ 24) :
    blockAdvance b = (4 - b % 4) % 4 := by
  unfold blockAdvance
  have h2 : (0xFFFFFFFC : Nat) = (2 ^ 30 - 1) <<< 2 := by decide
  rw [h2, and_high_mask (b + 3) 2 30 (by omega)]
  unfold sub64
  have hb64 : b % 2 ^ 64 = b := Nat.mod_eq_of_lt (by omega)
  rw [hb64]
  omega

theorem commandWord_raw (n : Nat) : commandWord 0 n = n := by
  unfold commandWord
  rw [Nat.zero_shiftLeft, Nat.zero_or]

theorem blockSize_of_raw (n : Nat) (hn : n < 2 ^ 24) : n &&& 0xFFFFFF = n := by
  have h : (0xFFFFFF : Nat) = 2 ^ 24 - 1 := by decide
  rw [h, Nat.and_pow_two_sub_one_eq_mod, Nat.mod_eq_of_lt hn]

theorem flag_of_raw (n : Nat) (hn : n < 2 ^ 24) : n >>> 24 = 0 := by
  rw [Nat.shiftRight_eq_div_pow, Nat.div_eq_of_lt hn]

/-! ## Little-endian words -/

theorem toNat_ofNat (n : Nat) : (UInt8.ofNat n).toNat = n % 256 := by
  simp [UInt8.ofNat, UInt8.toNat, Fin.ofNat]

theorem readLE_le32 (n : Nat) : readLE (le32 n) = n % 2 ^ 32 := by
  simp only [le32, readLE, toNat_ofNat]
  omega

theorem length_le32 (n : Nat) : (le32 n).length = 4 := rfl

theorem fieldAt_le32 (pre rest : List UInt8) (n off : Nat) (hoff : off = pre.length) :
    fieldAt (pre ++ (le32 n ++ rest)) off 4 = n % 2 ^ 32 := by
  unfold fieldAt
  rw [hoff, List.drop_left, List.take_append_of_le_length (by rw [length_le32]),
    ← length_le32 n, List.take_length, readLE_le32]

/-! ## The block header of a run of raw blocks -/

theorem length_rawCommands (blocks : List (List UInt8)) :
    (rawCommands blocks).length = 4 * blocks.length := by
  induction blocks with
  | nil => rfl
  | cons b bs ih =>
    simp only [rawCommands, List.length_append, length_le32, ih, List.length_cons]
    omega

theorem rawCommands_cons (b : List UInt8) (bs : List (List UInt8)) :
    rawCommands (b :: bs) = le32 (commandWord 0 b.length) ++ rawCommands bs := rfl

theorem rawCommands_append (xs ys : List (List UInt8)) :
    rawCommands (xs ++ ys) = rawCommands xs ++ rawCommands ys := by
  induction xs with
  | nil => rfl
  | cons b bs ih => rw [List.cons_append, rawCommands_cons, rawCommands_cons, ih,
      List.append_assoc]

theorem length_rawBlockHeader (blocks : List (List UInt8)) (h : blocks.length ≤ 30) :
    (rawBlockHeader blocks).length = 128 := by
  simp only [rawBlockHeader, List.length_append, length_le32, length_rawCommands,
    List.length_replicate]
  omega

theorem count_rawBlockHeader (blocks : List (List UInt8)) (h : blocks.length ≤ 30) :
    BO3XPakDataHeader.Count ⟨rawBlockHeader blocks⟩ = blocks.length := by
  unfold BO3XPakDataHeader.Count rawBlockHeader
  simp only [List.append_assoc]
  have := fieldAt_le32 [] (le32 0 ++ (rawCommands blocks ++
    List.replicate (4 * (30 - blocks.length)) 0)) blocks.length 0 rfl
  rw [List.nil_append] at this
  rw [this]
  exact Nat.mod_eq_of_lt (by omega)

theorem commands_rawBlockHeader (done todo : List (List UInt8)) (b : List UInt8)
    (h : (done ++ b :: todo).length ≤ 30) (hb : b.length < 2 ^ 24) :
    BO3XPakDataHeader.Commands ⟨rawBlockHeader (done ++ b :: todo)⟩ done.length =
      some b.length := by
  have hlen : done.length < 30 := by
    rw [List.length_append, List.length_cons] at h
    omega
  unfold BO3XPakDataHeader.Commands
  rw [if_pos hlen]
  congr 1
  unfold rawBlockHeader
  rw [rawCommands_append, rawCommands_cons]
  simp only [List.append_assoc]
  have := fieldAt_le32 (le32 (done ++ b :: todo).length ++ (le32 0 ++ rawCommands done))
    (rawCommands todo ++ List.replicate (4 * (30 - (done ++ b :: todo).length)) 0)
    (commandWord 0 b.length) (8 + 4 * done.length)
    (by simp only [List.length_append, length_le32, length_rawCommands]; omega)
  simp only [List.append_assoc] at this
  rw [this, commandWord_raw]
  exact Nat.mod_eq_of_lt (by omega)

/-! ## One raw block -/

theorem GetCurrentStream_at (pre b rest : List UInt8) :
    MemoryReader.GetCurrentStream (pre ++ (b ++ rest)) pre.length b.length =
      some (b, pre.length + b.length) := by
  unfold MemoryReader.GetCurrentStream
  rw [if_pos (by simp only [List.length_append]; omega), List.drop_left, List.take_left]

theorem Read_at (pre b rest : List UInt8) :
    MemoryReader.Read (pre ++ (b ++ rest)) pre.length b.length =
      some (b, pre.length + b.length) := GetCurrentStream_at pre b rest

theorem writeAt_at (out b : List UInt8) (z : Nat) :
    writeAt (out ++ List.replicate (b.length + z) 0) out.length b =
      some (out ++ b ++ List.replicate z 0) := by
  unfold writeAt
  rw [if_pos (by simp only [List.length_append, List.length_replicate]; omega),
    List.take_left, List.drop_append, List.drop_replicate]
  have e : b.length + z - b.length = z := by omega
  rw [e]

theorem add64_of_lt (a b : Nat) (h : a + b < 2 ^ 64) : add64 a b = a + b :=
  Nat.mod_eq_of_lt h

theorem sub64_add (b z : Nat) (h : b + z < 2 ^ 64) : sub64 (b + z) b = z := by
  unfold sub64
  have hb : b % 2 ^ 64 = b := Nat.mod_eq_of_lt (by omega)
  rw [hb]
  omega

theorem length_blockPadding (GameID : SupportedGames) (n : Nat) :
    (blockPadding GameID n).length =
      if GameID = SupportedGames.ModernWarfare4 then (4 - n % 4) % 4 else 0 := by
  unfold blockPadding
  split <;> simp

/-- The copy of line 212 and the bookkeeping behind it. -/
theorem decodeBlock_raw (codecs : Codecs) (b out : List UInt8) (z pos : Nat)
    (hz : out.length + (b.length + z) < 2 ^ 64) :
    decodeBlock codecs 0 b.length b
        { Position := pos, result := out ++ List.replicate (b.length + z) 0,
          resultSize := out.length, remaining := b.length + z } =
      .ok { Position := pos, result := out ++ b ++ List.replicate z 0,
            resultSize := out.length + b.length, remaining := z } := by
  unfold decodeBlock
  simp only [show ¬ (0 : Nat) = 0x3 by decide, show ¬ (0 : Nat) = 0x6 by decide,
    show ¬ (0 : Nat) = 0x8 by decide, if_false, if_true, writeAt_at]
  rw [add64_of_lt _ _ (by omega), sub64_add _ _ (by omega)]

/-- A command for a raw block at the cursor: the block is copied to the end of the
output written so far, and the cursor ends behind the block and its padding. -/
theorem processCommand_raw (codecs : Codecs) (GameID : SupportedGames)
    (pre b rest out : List UInt8) (z : Nat) (hb : b.length < 2 ^ 24)
    (hz : out.length + (b.length + z) < 2 ^ 64)
    (hlen : (pre ++ (b ++ (blockPadding GameID b.length ++ rest))).length < 2 ^ 64) :
    processCommand codecs GameID (pre ++ (b ++ (blockPadding GameID b.length ++ rest)))
        b.length
        { Position := pre.length, result := out ++ List.replicate (b.length + z) 0,
          resultSize := out.length, remaining := b.length + z } =
      .ok { Position := (pre ++ (b ++ blockPadding GameID b.length)).length,
            result := out ++ b ++ List.replicate z 0,
            resultSize := out.length + b.length, remaining := z } := by
  unfold processCommand
  simp only [blockSize_of_raw _ hb, flag_of_raw _ hb, GetCurrentStream_at,
    decodeBlock_raw codecs b out z _ hz]
  simp only [List.length_append, length_blockPadding] at hlen ⊢
  cases GameID with
  | ModernWarfare4 =>
    simp only [if_true] at hlen ⊢
    rw [blockAdvance_eq _ hb, add64_of_lt _ _ (by omega)]
    simp only [Nat.add_assoc]
  | Other =>
    simp only [show ¬ SupportedGames.Other = SupportedGames.ModernWarfare4 by decide,
      if_false, Nat.add_zero]

/-! ## The raw blocks of one block header -/

theorem blockData_cons (GameID : SupportedGames) (b : List UInt8) (bs : List (List UInt8)) :
    blockData GameID (b :: bs) = b ++ blockPadding GameID b.length ++ blockData GameID bs :=
  rfl

/-- The commands of a header of raw blocks, from the block `todo` starts with on: the
blocks are copied one behind the other and the cursor ends behind their bytes. -/
theorem processCommands_raw_aux (codecs : Codecs) (GameID : SupportedGames)
    (blocks : List (List UInt8)) (hcount : blocks.length ≤ 30) (B rest : List UInt8)
    (hB64 : B.length < 2 ^ 64) (z : Nat) (todo : List (List UInt8)) :
    ∀ (done : List (List UInt8)) (pre out : List UInt8) (n i p total : Nat),
      blocks = done ++ todo → B = pre ++ (blockData GameID todo ++ rest) →
      (∀ b, b ∈ todo → b.length < 2 ^ 24) →
      n = todo.length → i = done.length → p = pre.length →
      total = todo.flatten.length + z → out.length + total < 2 ^ 64 →
      processCommands codecs GameID B ⟨rawBlockHeader blocks⟩ n i
          { Position := p, result := out ++ List.replicate total 0,
            resultSize := out.length, remaining := total } =
        .ok { Position := (pre ++ blockData GameID todo).length,
              result := out ++ todo.flatten ++ List.replicate z 0,
              resultSize := out.length + todo.flatten.length, remaining := z } := by
  induction todo with
  | nil =>
    intro done pre out n i p total _ _ _ hn _ hp ht _
    subst hn hp ht
    simp [processCommands, blockData]
  | cons b todo ih =>
    intro done pre out n i p total hblocks hB hsize hn hi hp ht htot
    subst hn hi hp
    have hb : b.length < 2 ^ 24 := hsize b (List.mem_cons_self _ _)
    have ht2 : total = b.length + (todo.flatten.length + z) := by
      rw [ht, List.flatten_cons, List.length_append]; omega
    have hB2 : B = pre ++ (b ++ (blockPadding GameID b.length ++
        (blockData GameID todo ++ rest))) := by
      rw [hB, blockData_cons]; simp only [List.append_assoc]
    rw [List.length_cons]
    unfold processCommands
    rw [hblocks, commands_rawBlockHeader done todo b (hblocks ▸ hcount) hb, ← hblocks]
    simp only []
    rw [ht2, hB2, processCommand_raw codecs GameID pre b _ out _ hb (by omega)
      (by rw [← hB2]; exact hB64)]
    simp only []
    rw [← hB2]
    have key := ih (done ++ [b]) (pre ++ (b ++ blockPadding GameID b.length)) (out ++ b)
      todo.length (done.length + 1) (pre ++ (b ++ blockPadding GameID b.length)).length
      (todo.flatten.length + z)
      (by rw [hblocks]; simp) (by rw [hB2]; simp only [List.append_assoc])
      (fun x hx => hsize x (List.mem_cons_of_mem _ hx)) rfl (by simp) rfl rfl
      (by rw [List.length_append]; omega)
    rw [List.length_append out b] at key
    rw [key]
    simp only [blockData_cons, List.flatten_cons, List.append_assoc, List.length_append]
    congr 2
    omega

/-! ## A stream of raw blocks -/

theorem length_padTo128 (bytes : List UInt8) :
    (padTo128 bytes).length = (bytes.length + 127) / 128 * 128 := by
  simp only [padTo128, List.length_append, List.length_replicate]
  omega

theorem length_rawGroup (GameID : SupportedGames) (g : List (List UInt8))
    (h : g.length ≤ 30) :
    (rawGroup GameID g).length = 128 + (blockData GameID g).length := by
  simp only [rawGroup, List.length_append, length_rawBlockHeader g h]

theorem length_flatten_le_blockData (GameID : SupportedGames) (g : List (List UInt8)) :
    g.flatten.length ≤ (blockData GameID g).length := by
  induction g with
  | nil => simp [blockData]
  | cons b bs ih =>
    rw [blockData_cons, List.flatten_cons]
    simp only [List.length_append]
    omega

theorem rawStream_single (GameID : SupportedGames) (g : List (List UInt8)) :
    rawStream GameID [g] = rawGroup GameID g := rfl

theorem rawStream_cons (GameID : SupportedGames) (g g1 : List (List UInt8))
    (gs : List (List (List UInt8))) :
    rawStream GameID (g :: g1 :: gs) =
      padTo128 (rawGroup GameID g) ++ rawStream GameID (g1 :: gs) := rfl

/-- A stream holds at least 128 bytes per group, and at least the bytes of its blocks. -/
theorem length_rawStream_ge (GameID : SupportedGames) (gs : List (List (List UInt8))) :
    ∀ g, (∀ x, x ∈ g :: gs → x.length ≤ 30) →
      128 * (g :: gs).length + (g :: gs).flatten.flatten.length ≤
        (rawStream GameID (g :: gs)).length := by
  induction gs with
  | nil =>
    intro g h
    rw [rawStream_single, length_rawGroup GameID g (h g (List.mem_cons_self _ _))]
    have := length_flatten_le_blockData GameID g
    simp only [List.length_cons, List.length_nil, List.flatten_cons, List.flatten_nil,
      List.append_nil]
    omega
  | cons g1 gs ih =>
    intro g h
    have h1 := ih g1 (fun x hx => h x (List.mem_cons_of_mem _ hx))
    have h2 := length_flatten_le_blockData GameID g
    rw [rawStream_cons, List.length_append, length_padTo128,
      length_rawGroup GameID g (h g (List.mem_cons_self _ _))]
    rw [List.flatten_cons, List.flatten_append, List.length_append, List.length_cons]
    omega

/-- One turn of the outer loop on a group of raw blocks. -/
theorem processBlockHeader_raw (codecs : Codecs) (GameID : SupportedGames)
    (g : List (List UInt8)) (pre rest out : List UInt8) (z total : Nat)
    (hcount : g.length ≤ 30) (hsize : ∀ b, b ∈ g → b.length < 2 ^ 24)
    (hB : (pre ++ (rawGroup GameID g ++ rest)).length < 2 ^ 60 - 127)
    (ht : total = g.flatten.length + z) (htot : out.length + total < 2 ^ 64) :
    processBlockHeader codecs GameID (pre ++ (rawGroup GameID g ++ rest))
        { Position := pre.length, result := out ++ List.replicate total 0,
          resultSize := out.length, remaining := total } =
      .ok { Position := ((pre ++ rawGroup GameID g).length + 127) / 128 * 128,
            result := out ++ g.flatten ++ List.replicate z 0,
            resultSize := out.length + g.flatten.length, remaining := z } := by
  have hB2 : pre ++ (rawGroup GameID g ++ rest) =
      pre ++ (rawBlockHeader g ++ (blockData GameID g ++ rest)) := by
    simp only [rawGroup, List.append_assoc]
  unfold processBlockHeader
  simp only []
  rw [hB2] at hB ⊢
  have hread := Read_at pre (rawBlockHeader g) (blockData GameID g ++ rest)
  rw [length_rawBlockHeader g hcount] at hread
  rw [hread]
  simp only [count_rawBlockHeader g hcount]
  have key := processCommands_raw_aux codecs GameID g hcount
    (pre ++ (rawBlockHeader g ++ (blockData GameID g ++ rest))) rest (by omega) z g []
    (pre ++ rawBlockHeader g) out g.length 0 (pre.length + 128) total rfl
    (by simp only [List.append_assoc]) hsize rfl rfl
    (by rw [List.length_append, length_rawBlockHeader g hcount]) ht htot
  rw [key]
  simp only []
  have hpos : (pre ++ rawBlockHeader g ++ blockData GameID g).length < 2 ^ 60 - 127 := by
    simp only [List.length_append] at hB ⊢
    omega
  rw [realign_eq _ hpos]
  simp only [rawGroup, List.append_assoc]

theorem decompressLoop_done (codecs : Codecs) (GameID : SupportedGames) (B : List UInt8)
    (fuel : Nat) (st : DecodeState) (h : B.length ≤ st.Position) :
    decompressLoop codecs GameID B fuel st = .returned (some st.result) st.resultSize := by
  cases fuel <;> simp [decompressLoop, Nat.not_lt.mpr h]

/-- The outer loop on a stream of groups of raw blocks that starts at a multiple of 128:
it returns the output written before, followed by the bytes of all blocks. -/
theorem decompressLoop_raw (codecs : Codecs) (GameID : SupportedGames)
    (gs : List (List (List UInt8))) :
    ∀ (g : List (List UInt8)) (pre out : List UInt8) (fuel total : Nat),
      (∀ x, x ∈ g :: gs → x.length ≤ 30) →
      (∀ x, x ∈ g :: gs → ∀ b, b ∈ x → b.length < 2 ^ 24) →
      pre.length % 128 = 0 →
      (pre ++ rawStream GameID (g :: gs)).length < 2 ^ 60 - 127 →
      (g :: gs).length ≤ fuel →
      total = (g :: gs).flatten.flatten.length → out.length + total < 2 ^ 64 →
      decompressLoop codecs GameID (pre ++ rawStream GameID (g :: gs)) fuel
          { Position := pre.length, result := out ++ List.replicate total 0,
            resultSize := out.length, remaining := total } =
        .returned (some (out ++ (g :: gs).flatten.flatten)) (out.length + total) := by
  induction gs with
  | nil =>
    intro g pre out fuel total hcount hsize _ hB hfuel ht htot
    have hg := hcount g (List.mem_cons_self _ _)
    rw [rawStream_single] at hB ⊢
    obtain ⟨f, rfl⟩ : ∃ f, fuel = f + 1 := ⟨fuel - 1, by
      simp only [List.length_cons, List.length_nil] at hfuel; omega⟩
    have hlt : pre.length < (pre ++ rawGroup GameID g).length := by
      rw [List.length_append, length_rawGroup GameID g hg]; omega
    have hstep := processBlockHeader_raw codecs GameID g pre [] out 0 total hg
      (hsize g (List.mem_cons_self _ _)) (by rw [List.append_nil]; exact hB)
      (by rw [ht]; simp) htot
    rw [List.append_nil] at hstep
    unfold decompressLoop
    simp only [hlt, if_true, hstep]
    rw [decompressLoop_done _ _ _ _ _ (by
      show (pre ++ rawGroup GameID g).length ≤ ((pre ++ rawGroup GameID g).length + 127)
        / 128 * 128
      omega)]
    simp [ht]
  | cons g1 gs ih =>
    intro g pre out fuel total hcount hsize hpre hB hfuel ht htot
    have hg := hcount g (List.mem_cons_self _ _)
    obtain ⟨f, rfl⟩ : ∃ f, fuel = f + 1 := ⟨fuel - 1, by
      simp only [List.length_cons] at hfuel; omega⟩
    rw [rawStream_cons] at hB ⊢
    have hpad : padTo128 (rawGroup GameID g) = rawGroup GameID g ++
        List.replicate ((128 - (rawGroup GameID g).length % 128) % 128) 0 := rfl
    have hB3 : pre ++ (padTo128 (rawGroup GameID g) ++ rawStream GameID (g1 :: gs)) =
        pre ++ (rawGroup GameID g ++
          (List.replicate ((128 - (rawGroup GameID g).length % 128) % 128) 0 ++
            rawStream GameID (g1 :: gs))) := by
      rw [hpad, List.append_assoc]
    have hlt : pre.length <
        (pre ++ (padTo128 (rawGroup GameID g) ++ rawStream GameID (g1 :: gs))).length := by
      simp only [List.length_append, length_padTo128, length_rawGroup GameID g hg]
      omega
    have hz : total = g.flatten.length + (g1 :: gs).flatten.flatten.length := by
      rw [ht, List.flatten_cons, List.flatten_append, List.length_append]
    have hstep := processBlockHeader_raw codecs GameID g pre
      (List.replicate ((128 - (rawGroup GameID g).length % 128) % 128) 0 ++
        rawStream GameID (g1 :: gs)) out (g1 :: gs).flatten.flatten.length total hg
      (hsize g (List.mem_cons_self _ _)) (by rw [← hB3]; exact hB) hz htot
    rw [← hB3] at hstep
    unfold decompressLoop
    simp only [hlt, if_true, hstep]
    have hposeq : ((pre ++ rawGroup GameID g).length + 127) / 128 * 128 =
        (pre ++ padTo128 (rawGroup GameID g)).length := by
      simp only [List.length_append, length_padTo128]
      omega
    have key := ih g1 (pre ++ padTo128 (rawGroup GameID g)) (out ++ g.flatten) f
      (g1 :: gs).flatten.flatten.length
      (fun x hx => hcount x (List.mem_cons_of_mem _ hx))
      (fun x hx => hsize x (List.mem_cons_of_mem _ hx))
      (by simp only [List.length_append, length_padTo128]; omega)
      (by rw [List.append_assoc]; exact hB)
      (by simp only [List.length_cons] at hfuel ⊢; omega) rfl
      (by rw [List.length_append]; omega)
    rw [List.append_assoc, List.length_append out] at key
    rw [hposeq, key]
    simp only [List.flatten_cons, List.flatten_append, List.append_assoc, List.length_append,
      hz]
    congr 1
    omega

/-- C9, as amended (raw-block round trip). A byte sequence split into groups of at most
30 raw blocks, each block shorter than 2^24 bytes, is laid out as a compressed stream:
per group a block header with the command words, then the bytes of the blocks (in the
ModernWarfare4 revision each block followed by padding to a multiple of 4 bytes),
padded to the next 128-byte boundary before the block header that follows. When the
sequence is not empty and the stream is shorter than 2^60 - 127 bytes,
`DecompressPackageObject` called with the length of the sequence returns the sequence,
and its length as the result size. -/
theorem C9_raw_round_trip (codecs : Codecs) (GameID : SupportedGames) (cacheID : Nat)
    (groups : List (List (List UInt8)))
    (hcount : ∀ g, g ∈ groups → g.length ≤ 30)
    (hsize : ∀ g, g ∈ groups → ∀ b, b ∈ g → b.length < 2 ^ 24)
    (hne : groups.flatten.flatten ≠ [])
    (hlen : (rawStream GameID groups).length < 2 ^ 60 - 127) :
    DecompressPackageObject codecs GameID cacheID (rawStream GameID groups)
        groups.flatten.flatten.length =
      .returned (some groups.flatten.flatten) groups.flatten.flatten.length := by
  cases groups with
  | nil => exact absurd rfl hne
  | cons g gs =>
    have hge := length_rawStream_ge GameID gs g hcount
    unfold DecompressPackageObject
    rw [if_neg (by
      intro h0
      exact hne (List.length_eq_zero.mp h0))]
    have key := decompressLoop_raw codecs GameID gs g [] []
      (((rawStream GameID (g :: gs)).length + 127) / 128)
      (g :: gs).flatten.flatten.length hcount hsize rfl
      (by rw [List.nil_append]; exact hlen) (by omega) rfl
      (by simp only [List.length_nil]; omega)
    simp only [List.nil_append, List.length_nil, Nat.zero_add] at key
    exact key

/-- C9 on the six bytes 1 to 6 in two groups, the first of two blocks, in the revision
aligned to 4 bytes. -/
theorem C9_raw_round_trip_witness :
    DecompressPackageObject Fixture.noCodecs SupportedGames.ModernWarfare4 0
        (rawStream SupportedGames.ModernWarfare4 [[[1, 2, 3], [4, 5]], [[6]]]) 6 =
      .returned (some [1, 2, 3, 4, 5, 6]) 6 :=
  C9_raw_round_trip Fixture.noCodecs SupportedGames.ModernWarfare4 0
    [[[1, 2, 3], [4, 5]], [[6]]] (by decide) (by decide) (by decide) (by decide!)

/-- C9 as stated fails in the ModernWarfare4 revision. The five bytes 1 to 5 are split
into the raw blocks 1 2 3 and 4 5 and laid out as the claim says: block header, the
bytes of the blocks, nothing else. Line 224 skips one byte after the first block, the
second block then runs past the end of the input, and the call returns no buffer. -/
theorem C9_counterexample :
    rawStream SupportedGames.Other [[[1, 2, 3], [4, 5]]] =
      rawBlockHeader [[1, 2, 3], [4, 5]] ++ [1, 2, 3, 4, 5] ∧
    DecompressPackageObject Fixture.noCodecs SupportedGames.ModernWarfare4 0
        (rawStream SupportedGames.Other [[[1, 2, 3], [4, 5]]]) 5 =
      .returned none 0 := by
  constructor <;> decide!

/-! ## Truncated input -/

/-- A command whose block is larger than what is left of the input ends the call with no
buffer and result size 0. -/
theorem processCommand_truncated (codecs : Codecs) (GameID : SupportedGames)
    (buffer : List UInt8) (Command : Nat) (st : DecodeState)
    (h : buffer.length - st.Position < Command &&& 0xFFFFFF) :
    processCommand codecs GameID buffer Command st = .error (.returned none 0) := by
  unfold processCommand MemoryReader.GetCurrentStream
  simp only []
  rw [if_neg (by omega)]

theorem processCommands_truncated (codecs : Codecs) (GameID : SupportedGames)
    (buffer : List UInt8) (blockHeader : BO3XPakDataHeader) (st : DecodeState)
    (Command : Nat) (h : buffer.length - st.Position < Command &&& 0xFFFFFF) (todo : Nat) :
    ∀ (i : Nat) (st0 : DecodeState),
      (st, Command) ∈ commandsTrace codecs GameID buffer blockHeader todo i st0 →
      processCommands codecs GameID buffer blockHeader todo i st0 =
        .error (.returned none 0) := by
  induction todo with
  | zero =>
    intro i st0 hmem
    simp [commandsTrace] at hmem
  | succ todo ih =>
    intro i st0 hmem
    unfold commandsTrace at hmem
    unfold processCommands
    cases hc : blockHeader.Commands i with
    | none => rw [hc] at hmem; simp at hmem
    | some c =>
      rw [hc] at hmem
      simp only [List.mem_cons] at hmem ⊢
      rcases hmem with heq | htail
      · obtain ⟨rfl, rfl⟩ := Prod.mk.inj heq
        simp only [processCommand_truncated codecs GameID buffer _ _ h]
      · cases hp : processCommand codecs GameID buffer c st0 with
        | error o => rw [hp] at htail; simp at htail
        | ok st1 =>
          rw [hp] at htail
          exact ih (i + 1) st1 htail

theorem processBlockHeader_truncated (codecs : Codecs) (GameID : SupportedGames)
    (buffer : List UInt8) (st : DecodeState) (Command : Nat)
    (h : buffer.length - st.Position < Command &&& 0xFFFFFF) (st0 : DecodeState)
    (hmem : (st, Command) ∈ blockHeaderTrace codecs GameID buffer st0) :
    processBlockHeader codecs GameID buffer st0 = .error (.returned none 0) := by
  unfold blockHeaderTrace at hmem
  unfold processBlockHeader
  cases hr : MemoryReader.Read buffer st0.Position 128 with
  | none => rw [hr] at hmem; simp at hmem
  | some r =>
    obtain ⟨bytes, pos⟩ := r
    rw [hr] at hmem
    simp only [] at hmem ⊢
    rw [processCommands_truncated codecs GameID buffer _ st Command h _ _ _ hmem]

theorem decompressLoop_truncated (codecs : Codecs) (GameID : SupportedGames)
    (buffer : List UInt8) (st : DecodeState) (Command : Nat)
    (h : buffer.length - st.Position < Command &&& 0xFFFFFF) (fuel : Nat) :
    ∀ (st0 : DecodeState), (st, Command) ∈ loopTrace codecs GameID buffer fuel st0 →
      decompressLoop codecs GameID buffer fuel st0 = .returned none 0 := by
  induction fuel with
  | zero =>
    intro st0 hmem
    simp [loopTrace] at hmem
  | succ fuel ih =>
    intro st0 hmem
    unfold loopTrace at hmem
    unfold decompressLoop
    by_cases hpos : st0.Position < buffer.length
    · rw [if_pos hpos] at hmem ⊢
      rcases List.mem_append.mp hmem with hhead | htail
      · rw [processBlockHeader_truncated codecs GameID buffer st Command h st0 hhead]
      · cases hp : processBlockHeader codecs GameID buffer st0 with
        | error o => rw [hp] at htail; simp at htail
        | ok st1 =>
          rw [hp] at htail
          exact ih st1 htail
    · rw [if_neg hpos] at hmem
      simp at hmem

/-- C10 (truncation is all or nothing). For every input and every decompressed size above
0: when one of the commands the decoding reads announces a block larger than the number
of input bytes left at the cursor, `DecompressPackageObject` returns no buffer and result
size 0, whatever the locals hold at that command, the output written by earlier
commands included. -/
theorem C10_truncated_stream (codecs : Codecs) (GameID : SupportedGames) (cacheID : Nat)
    (buffer : List UInt8) (decompressedSize : Nat) (hsize : 0 < decompressedSize)
    (st : DecodeState) (Command : Nat)
    (hreached : (st, Command) ∈ decodeTrace codecs GameID buffer decompressedSize)
    (htruncated : buffer.length - st.Position < Command &&& 0xFFFFFF) :
    DecompressPackageObject codecs GameID cacheID buffer decompressedSize =
      .returned none 0 := by
  unfold decodeTrace at hreached
  unfold DecompressPackageObject
  rw [if_neg (by omega)] at hreached ⊢
  exact decompressLoop_truncated codecs GameID buffer st Command htruncated _ _ hreached

/-- C10 on a stream whose first block has been copied to the output when the second block
is found to be cut short. -/
theorem C10_truncated_stream_witness :
    (({ Position := 132, result := [68, 65, 84, 65] ++ List.replicate 100 0,
        resultSize := 4, remaining := 100 } : DecodeState), 100) ∈
      decodeTrace Fixture.noCodecs SupportedGames.Other Fixture.cutStream 104 ∧
    Fixture.cutStream.length - 132 < 100 &&& 0xFFFFFF ∧
    DecompressPackageObject Fixture.noCodecs SupportedGames.Other 0 Fixture.cutStream 104 =
      .returned none 0 :=
  ⟨by decide!, by decide!,
    C10_truncated_stream Fixture.noCodecs SupportedGames.Other 0 Fixture.cutStream 104
      (by decide)
      { Position := 132, result := [68, 65, 84, 65] ++ List.replicate 100 0,
        resultSize := 4, remaining := 100 } 100 (by decide!) (by decide!)⟩

/-! ## The two alignments of the cursor -/

/-- C14 (128-byte re-alignment). For a cursor position `p` below 2^60 - 127 the position
set by line 227, `(p + 0x7F) & 0xFFFFFFFFFFFFF80`, is a multiple of 128, is not below
`p`, is the least such multiple, and is `p` itself when `p` is a multiple of 128. -/
theorem C14_realign_next_boundary (p : Nat) (hp : p < 2 ^ 60 - 127) :
    alignPosition p % 128 = 0 ∧ p ≤ alignPosition p ∧
    (∀ m, m % 128 = 0 → p ≤ m → alignPosition p ≤ m) ∧
    (p % 128 = 0 → alignPosition p = p) := by
  rw [realign_eq p hp]
  refine ⟨by omega, by omega, ?_, by omega⟩
  intro m hm hpm
  omega

/-- C14 at the positions 130 and 256. -/
theorem C14_realign_next_boundary_witness :
    alignPosition 130 = 256 ∧ alignPosition 256 = 256 ∧
    (alignPosition 130 % 128 = 0 ∧ 130 ≤ alignPosition 130 ∧
      (∀ m, m % 128 = 0 → 130 ≤ m → alignPosition 130 ≤ m) ∧
      (130 % 128 = 0 → alignPosition 130 = 130)) :=
  ⟨by decide, by decide, C14_realign_next_boundary 130 (by decide)⟩

theorem blockSize_lt (Command : Nat) : Command &&& 0xFFFFFF < 2 ^ 24 := by
  have h : (0xFFFFFF : Nat) = 2 ^ 24 - 1 := by decide
  rw [h, Nat.and_pow_two_sub_one_eq_mod]
  exact Nat.mod_lt _ (by decide)

/-- The switch leaves the cursor where the reader has put it. -/
theorem decodeBlock_position (codecs : Codecs) (flag blockSize : Nat) (dataBlock : List UInt8)
    (st st1 : DecodeState) (h : decodeBlock codecs flag blockSize dataBlock st = .ok st1) :
    st1.Position = st.Position := by
  unfold decodeBlock at h
  split at h
  · simp only [] at h
    split at h
    · cases h
    · cases h; rfl
  · split at h
    · simp only [] at h
      split at h
      · cases h
      · cases h; rfl
    · split at h
      · split at h
        · cases h
        · simp only [] at h
          split at h
          · cases h
          · cases h; rfl
      · split at h
        · split at h
          · cases h
          · cases h; rfl
        · cases h; rfl

/-- Where a command that goes through leaves the cursor: behind the block, and in the
ModernWarfare4 revision behind the advance of line 224 as well. -/
theorem processCommand_position (codecs : Codecs) (GameID : SupportedGames)
    (buffer : List UInt8) (Command : Nat) (st st1 : DecodeState)
    (h : processCommand codecs GameID buffer Command st = .ok st1) :
    st.Position + (Command &&& 0xFFFFFF) ≤ buffer.length ∧
    st1.Position =
      if GameID = SupportedGames.ModernWarfare4 then
        add64 (st.Position + (Command &&& 0xFFFFFF)) (blockAdvance (Command &&& 0xFFFFFF))
      else st.Position + (Command &&& 0xFFFFFF) := by
  unfold processCommand MemoryReader.GetCurrentStream at h
  simp only [] at h
  by_cases hfit : st.Position + (Command &&& 0xFFFFFF) ≤ buffer.length
  · rw [if_pos hfit] at h
    simp only [] at h
    refine ⟨hfit, ?_⟩
    cases hd : decodeBlock codecs (Command >>> 24) (Command &&& 0xFFFFFF)
        (List.take (Command &&& 0xFFFFFF) (List.drop st.Position buffer))
        { st with Position := st.Position + (Command &&& 0xFFFFFF) } with
    | error o => rw [hd] at h; cases h
    | ok st2 =>
      rw [hd] at h
      have hp := decodeBlock_position _ _ _ _ _ _ hd
      simp only [] at hp
      simp only [] at h
      by_cases hg : GameID = SupportedGames.ModernWarfare4
      · rw [if_pos hg] at h ⊢
        cases h
        simp only [hp]
      · rw [if_neg hg] at h ⊢
        cases h
        exact hp
  · rw [if_neg hfit] at h
    cases h

/-- C15 (4-byte alignment). In the ModernWarfare4 revision: for a block size `b` below
2^24 the advance of line 224, `((b + 3) & 0xFFFFFFFC) - b`, is below 4, makes `b` a
multiple of 4 and is the least number that does; a command that goes through leaves the
cursor that advance behind the data of its block, so a cursor that is on a 4-byte
boundary where the data starts is on the first 4-byte boundary at or behind their end
when the next command is read. The input is shorter than 2^64 - 3 bytes. -/
theorem C15_block_alignment (codecs : Codecs) (buffer : List UInt8) (Command : Nat)
    (st st1 : DecodeState) (hbuf : buffer.length + 3 < 2 ^ 64)
    (hok : processCommand codecs SupportedGames.ModernWarfare4 buffer Command st = .ok st1) :
    (∀ b, b < 2 ^ 24 → blockAdvance b < 4 ∧ (b + blockAdvance b) % 4 = 0 ∧
      ∀ p, (b + p) % 4 = 0 → blockAdvance b ≤ p) ∧
    st1.Position =
      st.Position + (Command &&& 0xFFFFFF) + blockAdvance (Command &&& 0xFFFFFF) ∧
    (st.Position % 4 = 0 →
      st1.Position % 4 = 0 ∧ st.Position + (Command &&& 0xFFFFFF) ≤ st1.Position ∧
      st1.Position < st.Position + (Command &&& 0xFFFFFF) + 4) := by
  have harith : ∀ b, b < 2 ^ 24 → blockAdvance b < 4 ∧ (b + blockAdvance b) % 4 = 0 ∧
      ∀ p, (b + p) % 4 = 0 → blockAdvance b ≤ p := by
    intro b hb
    rw [blockAdvance_eq b hb]
    refine ⟨by omega, by omega, ?_⟩
    intro p hp
    omega
  obtain ⟨hfit, hpos⟩ := processCommand_position _ _ _ _ _ _ hok
  rw [if_pos rfl] at hpos
  obtain ⟨h4, hmul, _⟩ := harith _ (blockSize_lt Command)
  rw [add64_of_lt _ _ (by omega)] at hpos
  refine ⟨harith, hpos, ?_⟩
  intro hstart
  rw [hpos]
  omega

/-- C15 on a raw block of 3 bytes at position 128: the cursor ends at 132. -/
theorem C15_block_alignment_witness :
    blockAdvance 3 = 1 ∧
    processCommand Fixture.noCodecs SupportedGames.ModernWarfare4
        (rawStream SupportedGames.ModernWarfare4 [[[1, 2, 3], [4, 5]]]) 3
        (Fixture.atFirstCommand 5) =
      .ok { Position := 132, result := [1, 2, 3, 0, 0], resultSize := 3, remaining := 2 } ∧
    (132 : Nat) = 128 + (3 &&& 0xFFFFFF) + blockAdvance (3 &&& 0xFFFFFF) :=
  ⟨by decide, by decide!,
    (C15_block_alignment Fixture.noCodecs
      (rawStream SupportedGames.ModernWarfare4 [[[1, 2, 3], [4, 5]]]) 3
      (Fixture.atFirstCommand 5)
      { Position := 132, result := [1, 2, 3, 0, 0], resultSize := 3, remaining := 2 }
      (by decide!) (by decide!)).2.1⟩

/-! ## The blocks of the external decoders -/

/-- The bytes of the block of a command that fits into the input. -/
theorem GetCurrentStream_fits (buffer : List UInt8) (pos n : Nat)
    (h : pos + n ≤ buffer.length) :
    MemoryReader.GetCurrentStream buffer pos n =
      some ((buffer.drop pos).take n, pos + n) := by
  unfold MemoryReader.GetCurrentStream
  rw [if_pos h]

theorem length_block (buffer : List UInt8) (pos n : Nat) (h : pos + n ≤ buffer.length) :
    ((buffer.drop pos).take n).length = n := by
  rw [List.length_take, List.length_drop]
  omega

/-- C16 (flag 6). A command of flag 6 whose block lies inside the input: the external
decoder is called on the bytes of the block with the target length
`min(remaining, 262112)`, and what it stores goes to the write cursor; when that lies
inside the output buffer the command goes through, the write cursor has advanced by the
target length (in `size_t` arithmetic) and the budget has decreased by it, without
underflow. -/
theorem C16_implicit_length_block (codecs : Codecs) (GameID : SupportedGames)
    (buffer : List UInt8) (Command : Nat) (st : DecodeState) (out : List UInt8)
    (hflag : Command >>> 24 = 0x6)
    (hfit : st.Position + (Command &&& 0xFFFFFF) ≤ buffer.length)
    (hrem : st.remaining < 2 ^ 64)
    (hstore : writeAt st.result st.resultSize
      (codecs.SirenDecompress ((buffer.drop st.Position).take (Command &&& 0xFFFFFF))
        (min st.remaining 262112)).1 = some out) :
    ((buffer.drop st.Position).take (Command &&& 0xFFFFFF)).length = Command &&& 0xFFFFFF ∧
    min st.remaining 262112 ≤ st.remaining ∧
    ∃ st1, processCommand codecs GameID buffer Command st = .ok st1 ∧
      st1.result = out ∧
      st1.resultSize = (st.resultSize + min st.remaining 262112) % 2 ^ 64 ∧
      st1.remaining = st.remaining - min st.remaining 262112 := by
  refine ⟨length_block _ _ _ hfit, Nat.min_le_left _ _, ?_⟩
  have hsub : sub64 st.remaining (min st.remaining 262112) =
      st.remaining - min st.remaining 262112 := by
    unfold sub64
    have h1 : min st.remaining 262112 ≤ st.remaining := Nat.min_le_left _ _
    have h2 : min st.remaining 262112 % 2 ^ 64 = min st.remaining 262112 :=
      Nat.mod_eq_of_lt (by omega)
    rw [h2]
    omega
  unfold processCommand
  simp only [GetCurrentStream_fits _ _ _ hfit, hflag]
  unfold decodeBlock
  simp only [show ¬ (0x6 : Nat) = 0x3 by decide, if_false, if_true, hstore]
  cases GameID with
  | ModernWarfare4 => exact ⟨_, rfl, rfl, rfl, hsub⟩
  | Other => exact ⟨_, rfl, rfl, rfl, hsub⟩

/-- C16 on a block of flag 6 with the bytes 1 2 3 and a budget of 3. -/
theorem C16_implicit_length_block_witness :
    ∃ st1, processCommand Fixture.storedCodecs SupportedGames.Other Fixture.implicitStream
        (commandWord 6 3) (Fixture.atFirstCommand 3) = .ok st1 ∧
      st1.result = [1, 2, 3] ∧ st1.resultSize = (0 + min 3 262112) % 2 ^ 64 ∧
      st1.remaining = 3 - min 3 262112 :=
  (C16_implicit_length_block Fixture.storedCodecs SupportedGames.Other
    Fixture.implicitStream (commandWord 6 3) (Fixture.atFirstCommand 3) [1, 2, 3]
    (by decide) (by decide!) (by decide) (by decide!)).2.2

/-- C17 (flag 8). A command of flag 8 whose block has at least 4 bytes and lies inside the
input: the decompressed size `L` of the chunk is the little-endian value of the first 4
bytes of the block, the external decoder is called on the other `blockSize - 4` bytes
with the target length `L`, and what it stores goes to the write cursor; when that lies
inside the output buffer the command goes through, and the write cursor has advanced by
`L` and the budget has decreased by `L`, both in `size_t` arithmetic. -/
theorem C17_explicit_length_block (codecs : Codecs) (GameID : SupportedGames)
    (buffer : List UInt8) (Command : Nat) (st : DecodeState) (out : List UInt8)
    (hflag : Command >>> 24 = 0x8) (hsize : 4 ≤ Command &&& 0xFFFFFF)
    (hfit : st.Position + (Command &&& 0xFFFFFF) ≤ buffer.length)
    (hstore : writeAt st.result st.resultSize
      (codecs.SirenDecompress (((buffer.drop st.Position).take (Command &&& 0xFFFFFF)).drop 4)
        (readLE (((buffer.drop st.Position).take (Command &&& 0xFFFFFF)).take 4))).1 =
        some out) :
    (((buffer.drop st.Position).take (Command &&& 0xFFFFFF)).drop 4).length =
      (Command &&& 0xFFFFFF) - 4 ∧
    ∃ st1, processCommand codecs GameID buffer Command st = .ok st1 ∧
      st1.result = out ∧
      st1.resultSize = add64 st.resultSize
        (readLE (((buffer.drop st.Position).take (Command &&& 0xFFFFFF)).take 4)) ∧
      st1.remaining = sub64 st.remaining
        (readLE (((buffer.drop st.Position).take (Command &&& 0xFFFFFF)).take 4)) := by
  refine ⟨by rw [List.length_drop, length_block _ _ _ hfit], ?_⟩
  have hprefix : ∀ l : List UInt8, fieldAt l 0 4 = readLE (l.take 4) := fun _ => rfl
  unfold processCommand
  simp only [GetCurrentStream_fits _ _ _ hfit, hflag]
  unfold decodeBlock
  simp only [show ¬ (0x8 : Nat) = 0x3 by decide, show ¬ (0x8 : Nat) = 0x6 by decide,
    if_false, if_true, if_neg (Nat.not_lt.mpr hsize), hprefix, hstore]
  cases GameID with
  | ModernWarfare4 => exact ⟨_, rfl, rfl, rfl, rfl⟩
  | Other => exact ⟨_, rfl, rfl, rfl, rfl⟩

/-- C17 on a block of flag 8 with the length word 3 and the bytes 7 8 9. -/
theorem C17_explicit_length_block_witness :
    readLE ((Fixture.explicitStream.drop 128).take 4) = 3 ∧
    ∃ st1, processCommand Fixture.storedCodecs SupportedGames.Other Fixture.explicitStream
        (commandWord 8 7) (Fixture.atFirstCommand 3) = .ok st1 ∧
      st1.result = [7, 8, 9] ∧ st1.resultSize = add64 0 3 ∧ st1.remaining = sub64 3 3 :=
  ⟨by decide!,
    (C17_explicit_length_block Fixture.storedCodecs SupportedGames.Other
      Fixture.explicitStream (commandWord 8 7) (Fixture.atFirstCommand 3) [7, 8, 9]
      (by decide) (by decide) (by decide!) (by decide!)).2⟩

/-- C18 at a failing input: an object of 5 bytes stored as two LZ4 blocks, the literals
"AB" and the literals "CDE". After the first command the write cursor has advanced by
the whole budget, 5, while the budget has decreased by the 2 bytes the decoder returned;
the second block is then stored behind the end of the output buffer. -/
theorem C18_cursor_and_budget_differ :
    processCommand Fixture.literalCodecs SupportedGames.Other Fixture.lz4Stream
        (commandWord 3 3) (Fixture.atFirstCommand 5) =
      .ok { Position := 131, result := [65, 66, 0, 0, 0], resultSize := 5, remaining := 3 } ∧
    DecompressPackageObject Fixture.literalCodecs SupportedGames.Other 0 Fixture.lz4Stream 5 =
      .fault := by
  constructor <;> decide!

/-! ## The two layouts of the header -/

theorem Read_header_open (fs : FileSystem) (path : String) :
    ((CoDFileHandle.Open fs path).Read 120).1 =
      (contiguousHeader (archiveBytes fs path)).Bytes := by
  rw [CoDFileHandle.Read_fst]
  unfold CoDFileHandle.Available contiguousHeader archiveBytes
  have hp : (CoDFileHandle.Open fs path).Position = 0 := rfl
  rw [hp, List.drop_zero, List.drop_replicate, List.length_take]
  congr 2
  omega

theorem length_contiguousHeader (file : List UInt8) :
    (contiguousHeader file).Bytes.length = 120 := by
  unfold contiguousHeader
  simp only [List.length_append, List.length_take, List.length_replicate]
  omega

/-- A read that the file has all the bytes for. -/
theorem CoDFileHandle.ReadInto_full (r : CoDFileHandle) (buffer : List UInt8) (off n : Nat)
    (h : r.Position + n ≤ r.Bytes.length) :
    (r.ReadInto buffer off n).1 =
      buffer.take off ++ (r.Bytes.drop r.Position).take n ++ buffer.drop (off + n) ∧
    (r.ReadInto buffer off n).2.Position = r.Position + n := by
  have hl : (r.Available n).length = n := by
    unfold CoDFileHandle.Available
    rw [List.length_take, List.length_drop]
    omega
  refine ⟨?_, ?_⟩ <;> simp only [CoDFileHandle.ReadInto, CoDFileHandle.Available, hl] <;>
    rw [← CoDFileHandle.Available, hl]

/-- The header after the two reads of lines 68 and 70 on a file of at least 408 bytes. -/
theorem variant_reads (r : CoDFileHandle) (H : List UInt8) (hH : H.length = 120)
    (hsize : 408 ≤ r.Bytes.length) :
    (((((r.SeekSet 0).ReadInto H 0 24).2.SeekCur 288).ReadInto
        ((r.SeekSet 0).ReadInto H 0 24).1 24 96).1) =
      r.Bytes.take 24 ++ (r.Bytes.drop 312).take 96 := by
  have hb0 : (r.SeekSet 0).Bytes = r.Bytes := rfl
  have hp0 : (r.SeekSet 0).Position = 0 := rfl
  obtain ⟨h1, h1p⟩ := CoDFileHandle.ReadInto_full (r.SeekSet 0) H 0 24 (by rw [hb0, hp0]; omega)
  rw [hb0, hp0, List.drop_zero, List.take_zero, List.nil_append, Nat.zero_add] at h1
  rw [hp0, Nat.zero_add] at h1p
  have hb1 : (((r.SeekSet 0).ReadInto H 0 24).2.SeekCur 288).Bytes = r.Bytes := rfl
  have hp1 : (((r.SeekSet 0).ReadInto H 0 24).2.SeekCur 288).Position = 312 := by
    show ((r.SeekSet 0).ReadInto H 0 24).2.Position + 288 = 312
    rw [h1p]
  obtain ⟨h2, _⟩ := CoDFileHandle.ReadInto_full
    (((r.SeekSet 0).ReadInto H 0 24).2.SeekCur 288) ((r.SeekSet 0).ReadInto H 0 24).1 24 96
    (by rw [hb1, hp1]; omega)
  rw [h2, hb1, hp1, h1]
  have h24 : (List.take 24 r.Bytes).length = 24 := by rw [List.length_take]; omega
  have hnil : List.drop (24 + 96) (List.take 24 r.Bytes ++ List.drop 24 H) = [] :=
    List.drop_eq_nil_of_le (by rw [List.length_append, h24, List.length_drop, hH])
  rw [List.take_left' h24, hnil, List.append_nil]

/-- C12, as amended (header variant). When the version field of the header read in one
piece is 0xD and the file holds the two parts (408 bytes or more), the header
`LoadPackage` validates and decodes is made of the file bytes 0 to 23 followed by the
file bytes 312 to 407; for every other version it is the header read in one piece at
offset 0. -/
theorem C12_header_variant (fs : FileSystem) (path : String) :
    ((contiguousHeader (archiveBytes fs path)).Version = 0xD →
      408 ≤ (archiveBytes fs path).length →
      (archiveHeader fs path).Bytes =
        (archiveBytes fs path).take 24 ++ ((archiveBytes fs path).drop 312).take 96) ∧
    ((contiguousHeader (archiveBytes fs path)).Version ≠ 0xD →
      archiveHeader fs path = contiguousHeader (archiveBytes fs path)) := by
  have hread := Read_header_open fs path
  have hlen := length_contiguousHeader (archiveBytes fs path)
  constructor
  · intro hv hsize
    unfold archiveHeader readHeader
    simp only [hread, hv, if_true]
    exact variant_reads ((CoDFileHandle.Open fs path).Read 120).2 _ hlen hsize
  · intro hv
    unfold archiveHeader readHeader
    simp only [hread, hv, if_false]

/-- C12 on an archive of version 0xD whose reserved bytes are 0xEE: the header decoded has
the hash count and the hash offset of the second part, and the archive loads. -/
theorem C12_header_variant_witness :
    (archiveHeader Fixture.variantFs "mw4.xpak").Bytes =
      Fixture.variantArchive.take 24 ++ (Fixture.variantArchive.drop 312).take 96 ∧
    (contiguousHeader Fixture.variantArchive).HashOffset = 0xEEEEEEEEEEEEEEEE ∧
    (archiveHeader Fixture.variantFs "mw4.xpak").HashCount = 1 ∧
    (archiveHeader Fixture.variantFs "mw4.xpak").HashOffset = 408 ∧
    (archiveHeader Fixture.variantFs "mw4.xpak").DataOffset = 432 ∧
    (LoadPackage Fixture.variantFs XPAKCache.empty "mw4.xpak").1 = true :=
  ⟨(C12_header_variant Fixture.variantFs "mw4.xpak").1 (by decide!) (by decide!),
    by decide!, by decide!, by decide!, by decide!, by decide!⟩

/-! ## Load, then extract -/

theorem readLE_lt (bs : List UInt8) : readLE bs < 256 ^ bs.length := by
  induction bs with
  | nil => simp [readLE]
  | cons b bs ih =>
    have hb : b.toNat < 256 := UInt8.toNat_lt_size b
    simp only [readLE, List.length_cons, Nat.pow_succ]
    omega

theorem fieldAt_lt (mem : List UInt8) (off : Nat) : fieldAt mem off 8 < 2 ^ 64 := by
  unfold fieldAt
  have h := readLE_lt ((mem.drop off).take 8)
  have hl : ((mem.drop off).take 8).length ≤ 8 := by
    rw [List.length_take]; omega
  calc readLE ((mem.drop off).take 8) < 256 ^ ((mem.drop off).take 8).length := h
    _ ≤ 256 ^ 8 := Nat.pow_le_pow_right (by decide) hl
    _ = 2 ^ 64 := by decide

/-- The dispatcher on a stream of raw blocks (the round trip, for use in other proofs). -/
theorem DecompressPackageObject_rawStream (codecs : Codecs) (GameID : SupportedGames)
    (cacheID : Nat) (g : List (List UInt8)) (gs : List (List (List UInt8)))
    (hcount : ∀ x, x ∈ g :: gs → x.length ≤ 30)
    (hsize : ∀ x, x ∈ g :: gs → ∀ b, b ∈ x → b.length < 2 ^ 24)
    (hne : (g :: gs).flatten.flatten.length ≠ 0)
    (hlen : (rawStream GameID (g :: gs)).length < 2 ^ 60 - 127) :
    DecompressPackageObject codecs GameID cacheID (rawStream GameID (g :: gs))
        (g :: gs).flatten.flatten.length =
      .returned (some (g :: gs).flatten.flatten) (g :: gs).flatten.flatten.length := by
  have hge := length_rawStream_ge GameID gs g hcount
  unfold DecompressPackageObject
  rw [if_neg hne]
  have key := decompressLoop_raw codecs GameID gs g [] []
    (((rawStream GameID (g :: gs)).length + 127) / 128)
    (g :: gs).flatten.flatten.length hcount hsize rfl
    (by rw [List.nil_append]; exact hlen) (by omega) rfl
    (by simp only [List.length_nil]; omega)
  simp only [List.nil_append, List.length_nil, Nat.zero_add] at key
  exact key

theorem hello_stream (GameID : SupportedGames) :
    rawStream GameID [[Fixture.hello]] = rawBlockHeader [Fixture.hello] ++ Fixture.hello := by
  cases GameID <;> decide!

theorem hello_decodes (codecs : Codecs) (GameID : SupportedGames) (cacheID : Nat) :
    DecompressPackageObject codecs GameID cacheID
        (rawBlockHeader [Fixture.hello] ++ Fixture.hello) 16 =
      .returned (some Fixture.hello) 16 := by
  have h := DecompressPackageObject_rawStream codecs GameID cacheID [Fixture.hello] []
    (by decide!) (by decide!) (by decide!) (by rw [hello_stream]; decide!)
  rw [hello_stream] at h
  exact h

/-- A read of `n` bytes that the file has all the bytes for. -/
theorem CoDFileHandle.Read_full (bytes : List UInt8) (pos n : Nat) (span : List UInt8)
    (hspan : (bytes.drop pos).take n = span) (hn : span.length = n) :
    ((CoDFileHandle.mk (some bytes) pos).Read n).1 = span := by
  have ha : (CoDFileHandle.mk (some bytes) pos).Available n = span := hspan
  rw [CoDFileHandle.Read_fst, ha, hn, List.drop_replicate, Nat.sub_self]
  simp

/-- C13, as amended (load, then extract). An archive whose header has the magic 0x4950414b
and the hash count 1, whose hash record is `{key = 0xAA, offset = 0, size = 144}`, and
whose data region starts with a block header for one raw block followed by the 16 bytes
"HELLOWORLDHELLOW" (a compressed span of 144 bytes) is loaded into an empty cache;
`ExtractPackageObject(0xAA, 16)` then returns "HELLOWORLDHELLOW" with result size 16. -/
theorem C13_load_then_extract (codecs : Codecs) (GameID : SupportedGames) (fs : FileSystem)
    (path : String) (ResultSize : Nat)
    (hmagic : (archiveHeader fs path).Magic = 0x4950414b)
    (hoffset : (archiveHeader fs path).HashOffset < (archiveBytes fs path).length)
    (hcount : (archiveHeader fs path).HashCount = 1)
    (hkey : (hashRecord fs path 0).Key = 0xAA)
    (hzero : (hashRecord fs path 0).Offset = 0)
    (hsize : (hashRecord fs path 0).Size = 144)
    (hdata : ((archiveBytes fs path).drop (archiveHeader fs path).DataOffset).take 144 =
      rawBlockHeader [Fixture.hello] ++ Fixture.hello) :
    (ExtractPackageObject codecs GameID fs (LoadPackage fs XPAKCache.empty path).2 0xAA 16
      ResultSize).outcome = .returned (some Fixture.hello) 16 := by
  have ha : acceptsHeader fs path = true := (acceptsHeader_iff fs path).mpr ⟨hmagic, hoffset⟩
  have hfind := LoadPackage_inserts fs XPAKCache.empty path 0 ha
    (by rw [hcount]; exact Nat.one_pos) rfl (fun j hj => absurd hj (Nat.not_lt_zero j))
  have hobj : NewObject (archiveHeader fs path)
      (XPAKCache.empty.PackageFilePaths.length % 2 ^ 32) (hashRecord fs path 0) =
      { Offset := (archiveHeader fs path).DataOffset, CompressedSize := 144,
        UncompressedSize := 0, PackageFileIndex := 0 } := by
    unfold NewObject
    rw [hzero, hsize, mask56, add64_of_lt _ _ (by
      have := fieldAt_lt (archiveHeader fs path).Bytes 32
      unfold BO3XPakHeader.DataOffset
      omega)]
    rfl
  rw [hkey, hobj] at hfind
  have hpaths : (LoadPackage fs XPAKCache.empty path).2.PackageFilePaths[0]? = some path := by
    rw [LoadPackage_paths fs _ path ha]
    rfl
  obtain ⟨bytes, hopen⟩ : ∃ bytes, fs.OpenFile path = some bytes := by
    cases h : fs.OpenFile path with
    | some b => exact ⟨b, rfl⟩
    | none =>
      have : archiveBytes fs path = [] := by
        unfold archiveBytes CoDFileHandle.Open CoDFileHandle.Bytes
        simp only [h, Option.getD_none]
      rw [this] at hoffset
      exact absurd hoffset (Nat.not_lt_zero _)
  have hbytes : archiveBytes fs path = bytes := by
    unfold archiveBytes CoDFileHandle.Open CoDFileHandle.Bytes
    simp only [hopen, Option.getD_some]
  rw [hbytes] at hdata
  rw [ExtractPackageObject_dispatch codecs GameID fs _ 0xAA 16 ResultSize _ path bytes hfind
    hpaths hopen]
  simp only []
  rw [CoDFileHandle.Read_full bytes _ 144 _ hdata (by decide!)]
  have h16 : toSizeT 16 = 16 := by decide
  rw [h16, hello_decodes]
  simp only [Nat.reducePow, Nat.reduceMod]

/-- C13 on the archive whose hash record has the size 144, in both revisions. -/
theorem C13_load_then_extract_witness :
    (hashRecord Fixture.helloFs144 "hello.xpak" 0).Size = 144 ∧
    (ExtractPackageObject Fixture.noCodecs SupportedGames.ModernWarfare4 Fixture.helloFs144
      (LoadPackage Fixture.helloFs144 XPAKCache.empty "hello.xpak").2 0xAA 16 7).outcome =
      .returned (some Fixture.hello) 16 :=
  ⟨by decide!,
    C13_load_then_extract Fixture.noCodecs SupportedGames.ModernWarfare4 Fixture.helloFs144
      "hello.xpak" 7 (by decide!) (by decide!) (by decide!) (by decide!) (by decide!)
      (by decide!) (by decide!)⟩

/-- C13 as stated fails: with the size 16 in the hash record the compressed span handed to
the dispatcher is the first 16 bytes of the data region, which are the start of the block
header; the 16 bytes "HELLOWORLDHELLOW" are not part of it, and the read of the block
header runs past the end of the span. -/
theorem C13_counterexample :
    (archiveHeader Fixture.helloFs16 "hello.xpak").Magic = 0x4950414b ∧
    (archiveHeader Fixture.helloFs16 "hello.xpak").HashCount = 1 ∧
    (hashRecord Fixture.helloFs16 "hello.xpak" 0).Key = 0xAA ∧
    (hashRecord Fixture.helloFs16 "hello.xpak" 0).Offset = 0 ∧
    (hashRecord Fixture.helloFs16 "hello.xpak" 0).Size = 16 ∧
    ((archiveBytes Fixture.helloFs16 "hello.xpak").drop
        (archiveHeader Fixture.helloFs16 "hello.xpak").DataOffset).take 144 =
      rawBlockHeader [Fixture.hello] ++ Fixture.hello ∧
    (ExtractPackageObject Fixture.noCodecs SupportedGames.Other Fixture.helloFs16
      (LoadPackage Fixture.helloFs16 XPAKCache.empty "hello.xpak").2 0xAA 16 7).outcome =
      .fault := by
  refine ⟨by decide!, by decide!, by decide!, by decide!, by decide!, by decide!, by decide!⟩

/-! ## Commands of an unknown flag -/

/-- A command of a flag other than 0, 3, 6 and 8 whose block lies inside the input: only
the cursor moves. -/
theorem processCommand_unknown (codecs : Codecs) (GameID : SupportedGames)
    (buffer : List UInt8) (Command : Nat) (st : DecodeState)
    (h0 : Command >>> 24 ≠ 0x0) (h3 : Command >>> 24 ≠ 0x3) (h6 : Command >>> 24 ≠ 0x6)
    (h8 : Command >>> 24 ≠ 0x8)
    (hfit : st.Position + (Command &&& 0xFFFFFF) ≤ buffer.length) :
    processCommand codecs GameID buffer Command st =
      .ok { st with Position := cursorBehind GameID st.Position (Command &&& 0xFFFFFF) } := by
  unfold processCommand cursorBehind
  simp only [GetCurrentStream_fits _ _ _ hfit]
  unfold decodeBlock
  simp only [h0, h3, h6, h8, if_false]
  cases GameID with
  | ModernWarfare4 => simp only [if_true]
  | Other =>
    simp only [show ¬ SupportedGames.Other = SupportedGames.ModernWarfare4 by decide, if_false]

theorem unknown_header_length :
    (blockHeaderBytes [commandWord 0xF 10, commandWord 0 4]).length = 128 := by decide!

theorem unknown_header_count :
    BO3XPakDataHeader.Count ⟨blockHeaderBytes [commandWord 0xF 10, commandWord 0 4]⟩ = 2 := by
  decide!

theorem unknown_header_first :
    BO3XPakDataHeader.Commands ⟨blockHeaderBytes [commandWord 0xF 10, commandWord 0 4]⟩ 0 =
      some (commandWord 0xF 10) := by decide!

theorem unknown_header_second :
    BO3XPakDataHeader.Commands ⟨blockHeaderBytes [commandWord 0xF 10, commandWord 0 4]⟩ 1 =
      some 4 := by decide!

/-- The scenario: the block of the unknown flag is passed over and the raw block is the
whole output. -/
theorem unknownThenRaw_decodes (codecs : Codecs) (GameID : SupportedGames) (cacheID : Nat)
    (junk : List UInt8) (hjunk : junk.length = 10) :
    DecompressPackageObject codecs GameID cacheID (unknownThenRaw GameID junk) 4 =
      .returned (some [68, 65, 84, 65]) 4 := by
  have hpadlen : (blockPadding GameID 10).length ≤ 3 := by
    rw [length_blockPadding]; split <;> omega
  have hpad4 : blockPadding GameID ([68, 65, 84, 65] : List UInt8).length = [] := by
    cases GameID <;> rfl
  have hB : unknownThenRaw GameID junk =
      (blockHeaderBytes [commandWord 0xF 10, commandWord 0 4] ++ (junk ++ blockPadding GameID 10))
        ++ ([68, 65, 84, 65] ++ (blockPadding GameID ([68, 65, 84, 65] : List UInt8).length
          ++ [])) := by
    rw [hpad4]
    simp only [unknownThenRaw, List.append_assoc, List.append_nil, List.nil_append]
  have hlen : (unknownThenRaw GameID junk).length =
      142 + (blockPadding GameID 10).length := by
    simp only [unknownThenRaw, List.length_append, unknown_header_length, hjunk,
      List.length_cons, List.length_nil]
    omega
  have hprelen : (blockHeaderBytes [commandWord 0xF 10, commandWord 0 4] ++
      (junk ++ blockPadding GameID 10)).length = 138 + (blockPadding GameID 10).length := by
    simp only [List.length_append, unknown_header_length, hjunk]
    omega
  have hread : MemoryReader.Read (unknownThenRaw GameID junk) 0 128 =
      some (blockHeaderBytes [commandWord 0xF 10, commandWord 0 4], 128) := by
    have h := Read_at [] (blockHeaderBytes [commandWord 0xF 10, commandWord 0 4])
      (junk ++ blockPadding GameID 10 ++ [68, 65, 84, 65])
    rw [unknown_header_length] at h
    simp only [List.nil_append, List.length_nil, Nat.zero_add] at h
    simp only [unknownThenRaw, List.append_assoc]
    simp only [List.append_assoc] at h
    exact h
  have hsize10 : commandWord 0xF 10 &&& 0xFFFFFF = 10 := by decide
  have hbehind : cursorBehind GameID 128 10 = 138 + (blockPadding GameID 10).length := by
    cases GameID <;> decide
  have hfirst : processCommand codecs GameID (unknownThenRaw GameID junk) (commandWord 0xF 10)
      { Position := 128, result := List.replicate 4 0, resultSize := 0, remaining := 4 } =
      .ok { Position := 138 + (blockPadding GameID 10).length, result := List.replicate 4 0,
            resultSize := 0, remaining := 4 } := by
    rw [processCommand_unknown codecs GameID (unknownThenRaw GameID junk) (commandWord 0xF 10) _
      (by decide) (by decide) (by decide) (by decide)
      (by rw [hsize10, hlen]; show 128 + 10 ≤ _; omega)]
    simp only [hsize10, hbehind]
  have hsecond : processCommand codecs GameID (unknownThenRaw GameID junk) 4
      { Position := 138 + (blockPadding GameID 10).length, result := List.replicate 4 0,
        resultSize := 0, remaining := 4 } =
      .ok { Position := 142 + (blockPadding GameID 10).length, result := [68, 65, 84, 65],
            resultSize := 4, remaining := 0 } := by
    have h := processCommand_raw codecs GameID
      (blockHeaderBytes [commandWord 0xF 10, commandWord 0 4] ++
        (junk ++ blockPadding GameID 10))
      [68, 65, 84, 65] [] [] 0 (by decide) (by decide)
      (by rw [← hB, hlen]; omega)
    rw [← hB, hprelen] at h
    rw [List.length_append, hprelen, hpad4] at h
    simp only [List.append_nil, List.nil_append, List.length_cons, List.length_nil,
      List.replicate_zero, Nat.add_zero, Nat.zero_add, Nat.reduceAdd] at h
    have hsum : 138 + (blockPadding GameID 10).length + 4 =
        142 + (blockPadding GameID 10).length := by omega
    rw [hsum] at h
    exact h
  have hcommands : processCommands codecs GameID (unknownThenRaw GameID junk)
      ⟨blockHeaderBytes [commandWord 0xF 10, commandWord 0 4]⟩ 2 0
      { Position := 128, result := List.replicate 4 0, resultSize := 0, remaining := 4 } =
      .ok { Position := 142 + (blockPadding GameID 10).length, result := [68, 65, 84, 65],
            resultSize := 4, remaining := 0 } := by
    simp only [processCommands, Nat.zero_add, unknown_header_first, unknown_header_second,
      hfirst, hsecond]
  have hblock : processBlockHeader codecs GameID (unknownThenRaw GameID junk)
      (DecodeState.initial 4) =
      .ok { Position := alignPosition (142 + (blockPadding GameID 10).length),
            result := [68, 65, 84, 65], resultSize := 4, remaining := 0 } := by
    unfold processBlockHeader
    have hinit : (DecodeState.initial 4).Position = 0 := rfl
    rw [hinit, hread]
    simp only [unknown_header_count]
    have hst : ({ DecodeState.initial 4 with Position := 128 } : DecodeState) =
        { Position := 128, result := List.replicate 4 0, resultSize := 0, remaining := 4 } :=
      rfl
    rw [hst, hcommands]
  unfold DecompressPackageObject
  rw [if_neg (by decide)]
  have hfuel : ((unknownThenRaw GameID junk).length + 127) / 128 = 1 + 1 := by
    rw [hlen]; omega
  rw [hfuel]
  unfold decompressLoop
  have hstart : (DecodeState.initial 4).Position < (unknownThenRaw GameID junk).length := by
    rw [hlen]; show 0 < _; omega
  rw [if_pos hstart, hblock]
  simp only []
  rw [decompressLoop_done]
  show (unknownThenRaw GameID junk).length ≤ alignPosition _
  rw [hlen, realign_eq _ (by omega)]
  omega

/-- C11, as amended (unknown flags). A command whose flag is none of 0, 3, 6 and 8 and
whose block lies inside the input goes through and leaves the output buffer, the write
cursor and the budget as they are; the cursor has advanced by the block size, and in the
ModernWarfare4 revision by the advance of line 224 on top of it. So a block of the flag
0xF and the size 10 (in the ModernWarfare4 revision followed by its 2 bytes of padding)
and then a raw block with the 4 bytes "DATA", decoded with the decompressed size 4, give
"DATA" with the result size 4. -/
theorem C11_unknown_flag_advances (codecs : Codecs) (GameID : SupportedGames)
    (cacheID : Nat) (buffer : List UInt8) (Command : Nat) (st : DecodeState)
    (junk : List UInt8)
    (h0 : Command >>> 24 ≠ 0x0) (h3 : Command >>> 24 ≠ 0x3) (h6 : Command >>> 24 ≠ 0x6)
    (h8 : Command >>> 24 ≠ 0x8)
    (hfit : st.Position + (Command &&& 0xFFFFFF) ≤ buffer.length)
    (hjunk : junk.length = 10) :
    processCommand codecs GameID buffer Command st =
      .ok { Position := cursorBehind GameID st.Position (Command &&& 0xFFFFFF),
            result := st.result, resultSize := st.resultSize, remaining := st.remaining } ∧
    cursorBehind SupportedGames.Other st.Position (Command &&& 0xFFFFFF) =
      st.Position + (Command &&& 0xFFFFFF) ∧
    DecompressPackageObject codecs GameID cacheID (unknownThenRaw GameID junk) 4 =
      .returned (some [68, 65, 84, 65]) 4 :=
  ⟨processCommand_unknown codecs GameID buffer Command st h0 h3 h6 h8 hfit, rfl,
    unknownThenRaw_decodes codecs GameID cacheID junk hjunk⟩

/-- C11 in the ModernWarfare4 revision, on ten bytes 0xEE for the unknown block. -/
theorem C11_unknown_flag_advances_witness :
    processCommand Fixture.noCodecs SupportedGames.ModernWarfare4
        (unknownThenRaw SupportedGames.ModernWarfare4 (List.replicate 10 0xEE))
        (commandWord 0xF 10) (Fixture.atFirstCommand 4) =
      .ok { Position := 140, result := [0, 0, 0, 0], resultSize := 0, remaining := 4 } ∧
    DecompressPackageObject Fixture.noCodecs SupportedGames.ModernWarfare4 0
        (unknownThenRaw SupportedGames.ModernWarfare4 (List.replicate 10 0xEE)) 4 =
      .returned (some [68, 65, 84, 65]) 4 :=
  ⟨((C11_unknown_flag_advances Fixture.noCodecs SupportedGames.ModernWarfare4 0
      (unknownThenRaw SupportedGames.ModernWarfare4 (List.replicate 10 0xEE))
      (commandWord 0xF 10) (Fixture.atFirstCommand 4) (List.replicate 10 0xEE)
      (by decide) (by decide) (by decide) (by decide) (by decide!) (by decide)).1).trans
      (by decide!),
    (C11_unknown_flag_advances Fixture.noCodecs SupportedGames.ModernWarfare4 0
      (unknownThenRaw SupportedGames.ModernWarfare4 (List.replicate 10 0xEE))
      (commandWord 0xF 10) (Fixture.atFirstCommand 4) (List.replicate 10 0xEE)
      (by decide) (by decide) (by decide) (by decide) (by decide!) (by decide)).2.2⟩

/-- C11 as stated fails in the ModernWarfare4 revision: after the command of the flag 0xF
and the block size 10, read at the cursor 128, the cursor is at 140, not at 138; and the
stream laid out without padding (header, the 10 bytes, "DATA") returns no buffer, the raw
block being read from 140 on. -/
theorem C11_counterexample :
    commandWord 0xF 10 >>> 24 = 0xF ∧ commandWord 0xF 10 &&& 0xFFFFFF = 10 ∧
    processCommand Fixture.noCodecs SupportedGames.ModernWarfare4
        (unknownThenRaw SupportedGames.Other (List.replicate 10 0xEE))
        (commandWord 0xF 10) (Fixture.atFirstCommand 4) =
      .ok { Position := 140, result := [0, 0, 0, 0], resultSize := 0, remaining := 4 } ∧
    DecompressPackageObject Fixture.noCodecs SupportedGames.ModernWarfare4 0
        (unknownThenRaw SupportedGames.Other (List.replicate 10 0xEE)) 4 =
      .returned none 0 := by
  refine ⟨by decide, by decide, by decide!, by decide!⟩

/-! ## The budget -/

/-- Moving `t` bytes from the budget to the write cursor keeps their sum modulo 2^64. -/
theorem accounted_move (N rs rem t : Nat) (h : (rs + rem) % 2 ^ 64 = N % 2 ^ 64) :
    add64 rs t < 2 ^ 64 ∧ sub64 rem t < 2 ^ 64 ∧
      (add64 rs t + sub64 rem t) % 2 ^ 64 = N % 2 ^ 64 := by
  unfold add64 sub64
  refine ⟨Nat.mod_lt _ (by decide), Nat.mod_lt _ (by decide), ?_⟩
  omega

theorem decodeBlock_accounted (codecs : Codecs) (N flag blockSize : Nat)
    (dataBlock : List UInt8) (st st1 : DecodeState) (hacc : Accounted N st)
    (hflag : flag ≠ 0x3)
    (h : decodeBlock codecs flag blockSize dataBlock st = .ok st1) : Accounted N st1 := by
  obtain ⟨hrs, hrem, hsum⟩ := hacc
  unfold decodeBlock at h
  rw [if_neg hflag] at h
  split at h
  · simp only [] at h
    split at h
    · cases h
    · cases h
      exact accounted_move N _ _ _ hsum
  · split at h
    · split at h
      · cases h
      · simp only [] at h
        split at h
        · cases h
        · cases h
          exact accounted_move N _ _ _ hsum
    · split at h
      · split at h
        · cases h
        · cases h
          exact accounted_move N _ _ _ hsum
      · cases h
        exact ⟨hrs, hrem, hsum⟩

theorem processCommand_accounted (codecs : Codecs) (GameID : SupportedGames)
    (buffer : List UInt8) (N Command : Nat) (st st1 : DecodeState) (hacc : Accounted N st)
    (hflag : Command >>> 24 ≠ 0x3)
    (h : processCommand codecs GameID buffer Command st = .ok st1) : Accounted N st1 := by
  unfold processCommand at h
  simp only [] at h
  cases hg : MemoryReader.GetCurrentStream buffer st.Position (Command &&& 0xFFFFFF) with
  | none => rw [hg] at h; cases h
  | some r =>
    obtain ⟨dataBlock, pos⟩ := r
    rw [hg] at h
    simp only [] at h
    cases hd : decodeBlock codecs (Command >>> 24) (Command &&& 0xFFFFFF) dataBlock
        { st with Position := pos } with
    | error o => rw [hd] at h; cases h
    | ok st2 =>
      rw [hd] at h
      have h2 : Accounted N st2 :=
        decodeBlock_accounted codecs N _ _ _ { st with Position := pos } _ hacc hflag hd
      simp only [] at h
      split at h
      · cases h; exact h2
      · cases h; exact h2

theorem processCommands_accounted (codecs : Codecs) (GameID : SupportedGames)
    (buffer : List UInt8) (blockHeader : BO3XPakDataHeader) (N : Nat) (todo : Nat) :
    ∀ (i : Nat) (st0 : DecodeState), Accounted N st0 →
      (∀ e, e ∈ commandsTrace codecs GameID buffer blockHeader todo i st0 →
        e.2 >>> 24 ≠ 0x3) →
      (∀ e, e ∈ commandsTrace codecs GameID buffer blockHeader todo i st0 →
        Accounted N e.1) ∧
      (∀ st1, processCommands codecs GameID buffer blockHeader todo i st0 = .ok st1 →
        Accounted N st1) := by
  induction todo with
  | zero =>
    intro i st0 hacc _
    refine ⟨fun e he => ?_, fun st1 h => ?_⟩
    · simp [commandsTrace] at he
    · simp only [processCommands] at h
      cases h
      exact hacc
  | succ todo ih =>
    intro i st0 hacc hflags
    unfold commandsTrace at hflags ⊢
    unfold processCommands
    cases hc : blockHeader.Commands i with
    | none =>
      refine ⟨fun e he => ?_, fun st1 h => ?_⟩
      · simp at he
      · cases h
    | some c =>
      rw [hc] at hflags
      simp only [] at hflags ⊢
      have hflag : c >>> 24 ≠ 0x3 := hflags (st0, c) (List.mem_cons_self _ _)
      cases hp : processCommand codecs GameID buffer c st0 with
      | error o =>
        refine ⟨fun e he => ?_, fun st1 h => ?_⟩
        · simp only [List.mem_cons, List.not_mem_nil, or_false] at he
          rw [he]; exact hacc
        · cases h
      | ok st2 =>
        rw [hp] at hflags
        have h2 := processCommand_accounted codecs GameID buffer N c st0 st2 hacc hflag hp
        obtain ⟨htrace, hend⟩ := ih (i + 1) st2 h2
          (fun e he => hflags e (List.mem_cons_of_mem _ he))
        refine ⟨fun e he => ?_, fun st1 h => hend st1 h⟩
        rcases List.mem_cons.mp he with heq | htail
        · rw [heq]; exact hacc
        · exact htrace e htail

theorem processBlockHeader_accounted (codecs : Codecs) (GameID : SupportedGames)
    (buffer : List UInt8) (N : Nat) (st0 : DecodeState) (hacc : Accounted N st0)
    (hflags : ∀ e, e ∈ blockHeaderTrace codecs GameID buffer st0 → e.2 >>> 24 ≠ 0x3) :
    (∀ e, e ∈ blockHeaderTrace codecs GameID buffer st0 → Accounted N e.1) ∧
    (∀ st1, processBlockHeader codecs GameID buffer st0 = .ok st1 → Accounted N st1) := by
  unfold blockHeaderTrace at hflags ⊢
  unfold processBlockHeader
  cases hr : MemoryReader.Read buffer st0.Position 128 with
  | none =>
    refine ⟨fun e he => ?_, fun st1 h => ?_⟩
    · simp at he
    · cases h
  | some r =>
    obtain ⟨bytes, pos⟩ := r
    rw [hr] at hflags
    simp only [] at hflags ⊢
    obtain ⟨htrace, hend⟩ := processCommands_accounted codecs GameID buffer ⟨bytes⟩ N
      (BO3XPakDataHeader.Count ⟨bytes⟩) 0 { st0 with Position := pos } hacc hflags
    refine ⟨htrace, fun st1 h => ?_⟩
    cases hp : processCommands codecs GameID buffer ⟨bytes⟩ (BO3XPakDataHeader.Count ⟨bytes⟩)
        0 { st0 with Position := pos } with
    | error o => rw [hp] at h; cases h
    | ok st2 =>
      rw [hp] at h
      cases h
      exact hend st2 hp

theorem loopTrace_accounted (codecs : Codecs) (GameID : SupportedGames)
    (buffer : List UInt8) (N : Nat) (fuel : Nat) :
    ∀ (st0 : DecodeState), Accounted N st0 →
      (∀ e, e ∈ loopTrace codecs GameID buffer fuel st0 → e.2 >>> 24 ≠ 0x3) →
      ∀ e, e ∈ loopTrace codecs GameID buffer fuel st0 → Accounted N e.1 := by
  induction fuel with
  | zero =>
    intro st0 _ _ e he
    simp [loopTrace] at he
  | succ fuel ih =>
    intro st0 hacc hflags e he
    unfold loopTrace at hflags he
    by_cases hpos : st0.Position < buffer.length
    · rw [if_pos hpos] at hflags he
      obtain ⟨htrace, hend⟩ := processBlockHeader_accounted codecs GameID buffer N st0 hacc
        (fun e he => hflags e (List.mem_append_left _ he))
      rcases List.mem_append.mp he with hhead | htail
      · exact htrace e hhead
      · cases hp : processBlockHeader codecs GameID buffer st0 with
        | error o => rw [hp] at htail; simp at htail
        | ok st1 =>
          rw [hp] at htail hflags
          exact ih st1 (hend st1 hp) (fun e he => hflags e (List.mem_append_right _ he)) e htail
    · rw [if_neg hpos] at he
      simp at he

/-- C19 (budget accounting). The commands a decoding reads use the flags 0, 6, 8 or
unknown flags (none has the flag 3), and the decompressed size is a `size_t`. After
every command that goes through, the write cursor plus the budget is the decompressed
size modulo 2^64; and when the budget has not underflowed (it is not above the
decompressed size), the write cursor is not above the size of the output buffer. -/
theorem C19_budget_accounting (codecs : Codecs) (GameID : SupportedGames)
    (buffer : List UInt8) (decompressedSize : Nat) (hsize : decompressedSize < 2 ^ 64)
    (hflags : ∀ e, e ∈ decodeTrace codecs GameID buffer decompressedSize → e.2 >>> 24 ≠ 0x3)
    (st : DecodeState) (Command : Nat) (st1 : DecodeState)
    (hreached : (st, Command) ∈ decodeTrace codecs GameID buffer decompressedSize)
    (hok : processCommand codecs GameID buffer Command st = .ok st1) :
    (st1.resultSize + st1.remaining) % 2 ^ 64 = decompressedSize ∧
    (st1.remaining ≤ decompressedSize → st1.resultSize ≤ decompressedSize) := by
  have hflag := hflags _ hreached
  unfold decodeTrace at hflags hreached
  by_cases h0 : decompressedSize = 0
  · rw [if_pos h0] at hreached
    simp at hreached
  · rw [if_neg h0] at hflags hreached
    have hinit : Accounted decompressedSize (DecodeState.initial decompressedSize) :=
      ⟨by show 0 < 2 ^ 64; decide, hsize, by show (0 + decompressedSize) % 2 ^ 64 = _; omega⟩
    have hst := loopTrace_accounted codecs GameID buffer decompressedSize _ _ hinit hflags _
      hreached
    obtain ⟨hrs, hrem, hsum⟩ :=
      processCommand_accounted codecs GameID buffer decompressedSize Command st st1 hst hflag hok
    refine ⟨by omega, fun hle => ?_⟩
    omega

/-- C19 on a stream of two raw blocks, after the first of them. -/
theorem C19_budget_accounting_witness :
    (Fixture.atFirstCommand 5, 3) ∈ decodeTrace Fixture.noCodecs SupportedGames.Other
      (rawStream SupportedGames.Other [[[1, 2, 3], [4, 5]]]) 5 ∧
    processCommand Fixture.noCodecs SupportedGames.Other
        (rawStream SupportedGames.Other [[[1, 2, 3], [4, 5]]]) 3 (Fixture.atFirstCommand 5) =
      .ok { Position := 131, result := [1, 2, 3, 0, 0], resultSize := 3, remaining := 2 } ∧
    ((3 + 2) % 2 ^ 64 = 5 ∧ (2 ≤ 5 → 3 ≤ 5)) :=
  ⟨by decide!, by decide!,
    C19_budget_accounting Fixture.noCodecs SupportedGames.Other
      (rawStream SupportedGames.Other [[[1, 2, 3], [4, 5]]]) 5 (by decide) (by decide!)
      (Fixture.atFirstCommand 5) 3
      { Position := 131, result := [1, 2, 3, 0, 0], resultSize := 3, remaining := 2 }
      (by decide!) (by decide!)⟩

/-! ## Termination of the decoder -/

/-- The switch fails only by leaving the defined behaviour. -/
theorem decodeBlock_error (codecs : Codecs) (flag blockSize : Nat) (dataBlock : List UInt8)
    (st : DecodeState) (o : Outcome)
    (h : decodeBlock codecs flag blockSize dataBlock st = .error o) : o ≠ .outOfFuel := by
  unfold decodeBlock at h
  split at h
  · simp only [] at h
    split at h
    · cases h; intro hc; cases hc
    · cases h
  · split at h
    · simp only [] at h
      split at h
      · cases h; intro hc; cases hc
      · cases h
    · split at h
      · split at h
        · cases h; intro hc; cases hc
        · simp only [] at h
          split at h
          · cases h; intro hc; cases hc
          · cases h
      · split at h
        · split at h
          · cases h; intro hc; cases hc
          · cases h
        · cases h

theorem processCommand_error (codecs : Codecs) (GameID : SupportedGames)
    (buffer : List UInt8) (Command : Nat) (st : DecodeState) (o : Outcome)
    (h : processCommand codecs GameID buffer Command st = .error o) : o ≠ .outOfFuel := by
  unfold processCommand at h
  simp only [] at h
  cases hg : MemoryReader.GetCurrentStream buffer st.Position (Command &&& 0xFFFFFF) with
  | none => rw [hg] at h; cases h; intro hc; cases hc
  | some r =>
    obtain ⟨dataBlock, pos⟩ := r
    rw [hg] at h
    simp only [] at h
    cases hd : decodeBlock codecs (Command >>> 24) (Command &&& 0xFFFFFF) dataBlock
        { st with Position := pos } with
    | error o2 =>
      rw [hd] at h
      cases h
      exact decodeBlock_error _ _ _ _ _ _ hd
    | ok st2 =>
      rw [hd] at h
      simp only [] at h
      split at h
      · cases h
      · cases h

theorem processCommands_error (codecs : Codecs) (GameID : SupportedGames)
    (buffer : List UInt8) (blockHeader : BO3XPakDataHeader) (todo : Nat) :
    ∀ (i : Nat) (st : DecodeState) (o : Outcome),
      processCommands codecs GameID buffer blockHeader todo i st = .error o →
      o ≠ .outOfFuel := by
  induction todo with
  | zero =>
    intro i st o h
    simp only [processCommands] at h
    cases h
  | succ todo ih =>
    intro i st o h
    unfold processCommands at h
    cases hc : blockHeader.Commands i with
    | none => rw [hc] at h; cases h; intro hc; cases hc
    | some c =>
      rw [hc] at h
      simp only [] at h
      cases hp : processCommand codecs GameID buffer c st with
      | error o2 =>
        rw [hp] at h
        cases h
        exact processCommand_error _ _ _ _ _ _ hp
      | ok st2 =>
        rw [hp] at h
        exact ih (i + 1) st2 o h

theorem processBlockHeader_error (codecs : Codecs) (GameID : SupportedGames)
    (buffer : List UInt8) (st : DecodeState) (o : Outcome)
    (h : processBlockHeader codecs GameID buffer st = .error o) : o ≠ .outOfFuel := by
  unfold processBlockHeader at h
  cases hr : MemoryReader.Read buffer st.Position 128 with
  | none => rw [hr] at h; cases h; intro hc; cases hc
  | some r =>
    obtain ⟨bytes, pos⟩ := r
    rw [hr] at h
    simp only [] at h
    cases hp : processCommands codecs GameID buffer ⟨bytes⟩ (BO3XPakDataHeader.Count ⟨bytes⟩)
        0 { st with Position := pos } with
    | error o2 =>
      rw [hp] at h
      cases h
      exact processCommands_error _ _ _ _ _ _ _ _ hp
    | ok st2 => rw [hp] at h; cases h

/-- A command that goes through does not move the cursor backwards, and leaves it at
most 3 bytes behind the input. -/
theorem processCommand_cursor (codecs : Codecs) (GameID : SupportedGames)
    (buffer : List UInt8) (Command : Nat) (st st1 : DecodeState)
    (hlen : buffer.length + 3 < 2 ^ 64)
    (h : processCommand codecs GameID buffer Command st = .ok st1) :
    st.Position ≤ st1.Position ∧ st1.Position ≤ buffer.length + 3 := by
  obtain ⟨hfit, hpos⟩ := processCommand_position codecs GameID buffer Command st st1 h
  have hb := blockSize_lt Command
  have ha := blockAdvance_eq (Command &&& 0xFFFFFF) hb
  by_cases hg : GameID = SupportedGames.ModernWarfare4
  · rw [if_pos hg, ha] at hpos
    unfold add64 at hpos
    omega
  · rw [if_neg hg] at hpos
    omega

theorem processCommands_cursor (codecs : Codecs) (GameID : SupportedGames)
    (buffer : List UInt8) (blockHeader : BO3XPakDataHeader)
    (hlen : buffer.length + 3 < 2 ^ 64) (todo : Nat) :
    ∀ (i : Nat) (st st1 : DecodeState), st.Position ≤ buffer.length + 3 →
      processCommands codecs GameID buffer blockHeader todo i st = .ok st1 →
      st.Position ≤ st1.Position ∧ st1.Position ≤ buffer.length + 3 := by
  induction todo with
  | zero =>
    intro i st st1 hst h
    simp only [processCommands] at h
    cases h
    exact ⟨Nat.le_refl _, hst⟩
  | succ todo ih =>
    intro i st st1 hst h
    unfold processCommands at h
    cases hc : blockHeader.Commands i with
    | none => rw [hc] at h; cases h
    | some c =>
      rw [hc] at h
      simp only [] at h
      cases hp : processCommand codecs GameID buffer c st with
      | error o => rw [hp] at h; cases h
      | ok st2 =>
        rw [hp] at h
        obtain ⟨h1, h2⟩ := processCommand_cursor codecs GameID buffer c st st2 hlen hp
        obtain ⟨h3, h4⟩ := ih (i + 1) st2 st1 h2 h
        exact ⟨Nat.le_trans h1 h3, h4⟩

/-- One turn of the outer loop on an input below the range of the re-alignment mask
moves the cursor forward by 128 bytes or more. -/
theorem processBlockHeader_cursor (codecs : Codecs) (GameID : SupportedGames)
    (buffer : List UInt8) (st st1 : DecodeState) (hlen : buffer.length < 2 ^ 60 - 130)
    (h : processBlockHeader codecs GameID buffer st = .ok st1) :
    st.Position + 128 ≤ st1.Position := by
  unfold processBlockHeader MemoryReader.Read at h
  by_cases hfit : st.Position + 128 ≤ buffer.length
  · rw [if_pos hfit] at h
    simp only [] at h
    cases hp : processCommands codecs GameID buffer
        ⟨List.take 128 (List.drop st.Position buffer)⟩
        (BO3XPakDataHeader.Count ⟨List.take 128 (List.drop st.Position buffer)⟩)
        0 { st with Position := st.Position + 128 } with
    | error o => rw [hp] at h; cases h
    | ok st2 =>
      rw [hp] at h
      cases h
      obtain ⟨h1, h2⟩ := processCommands_cursor codecs GameID buffer _ (by omega) _ 0
        { st with Position := st.Position + 128 } st2 (by show st.Position + 128 ≤ _; omega) hp
      have h3 : st.Position + 128 ≤ st2.Position := h1
      show st.Position + 128 ≤ alignPosition st2.Position
      rw [realign_eq st2.Position (by omega)]
      omega
  · rw [if_neg hfit] at h
    cases h

/-- With `fuel` turns, each of 128 bytes or more, enough to reach the end of the input,
the outer loop comes to its end. -/
theorem decompressLoop_ends (codecs : Codecs) (GameID : SupportedGames)
    (buffer : List UInt8) (hlen : buffer.length < 2 ^ 60 - 130) (fuel : Nat) :
    ∀ (st : DecodeState), buffer.length ≤ st.Position + 128 * fuel →
      decompressLoop codecs GameID buffer fuel st ≠ .outOfFuel := by
  induction fuel with
  | zero =>
    intro st hst
    rw [decompressLoop_done codecs GameID buffer 0 st (by omega)]
    intro hc; cases hc
  | succ fuel ih =>
    intro st hst
    unfold decompressLoop
    by_cases hpos : st.Position < buffer.length
    · rw [if_pos hpos]
      cases hp : processBlockHeader codecs GameID buffer st with
      | error o => exact processBlockHeader_error _ _ _ _ _ hp
      | ok st1 =>
        have hstep := processBlockHeader_cursor codecs GameID buffer st st1 hlen hp
        exact ih st1 (by omega)
    · rw [if_neg hpos]
      intro hc; cases hc

/-- More turns than enough change nothing. -/
theorem decompressLoop_more (codecs : Codecs) (GameID : SupportedGames)
    (buffer : List UInt8) (hlen : buffer.length < 2 ^ 60 - 130) (fuel : Nat) :
    ∀ (st : DecodeState) (more : Nat), buffer.length ≤ st.Position + 128 * fuel →
      fuel ≤ more →
      decompressLoop codecs GameID buffer more st =
        decompressLoop codecs GameID buffer fuel st := by
  induction fuel with
  | zero =>
    intro st more hst _
    rw [decompressLoop_done codecs GameID buffer 0 st (by omega),
      decompressLoop_done codecs GameID buffer more st (by omega)]
  | succ fuel ih =>
    intro st more hst hmore
    obtain ⟨m, rfl⟩ : ∃ m, more = m + 1 := ⟨more - 1, by omega⟩
    unfold decompressLoop
    by_cases hpos : st.Position < buffer.length
    · rw [if_pos hpos, if_pos hpos]
      cases hp : processBlockHeader codecs GameID buffer st with
      | error o => rfl
      | ok st1 =>
        have hstep := processBlockHeader_cursor codecs GameID buffer st st1 hlen hp
        exact ih st1 m (by omega) (by omega)
    · rw [if_neg hpos, if_neg hpos]

/-- C20, as amended (termination). On an input shorter than 2^60 - 130 bytes, with a decompressed
size above 0, `DecompressPackageObject` comes to an end: the `ceil(length / 128)` turns
of the outer loop are enough, more turns give the same outcome, and every turn that
goes through moves the input cursor forward, by 128 bytes or more. -/
theorem C20_decoder_terminates (codecs : Codecs) (GameID : SupportedGames) (cacheID : Nat)
    (buffer : List UInt8) (decompressedSize : Nat)
    (hlen : buffer.length < 2 ^ 60 - 130) (hsize : 0 < decompressedSize) :
    DecompressPackageObject codecs GameID cacheID buffer decompressedSize ≠ .outOfFuel ∧
    (∀ fuel, (buffer.length + 127) / 128 ≤ fuel →
      decompressLoop codecs GameID buffer fuel (DecodeState.initial decompressedSize) =
        DecompressPackageObject codecs GameID cacheID buffer decompressedSize) ∧
    (∀ st st1, processBlockHeader codecs GameID buffer st = .ok st1 →
      st.Position < st1.Position ∧ st.Position + 128 ≤ st1.Position) := by
  have h0 : ¬ decompressedSize = 0 := by omega
  have hfuel : buffer.length ≤
      (DecodeState.initial decompressedSize).Position + 128 * ((buffer.length + 127) / 128) := by
    show buffer.length ≤ 0 + 128 * ((buffer.length + 127) / 128)
    omega
  unfold DecompressPackageObject
  rw [if_neg h0]
  refine ⟨decompressLoop_ends codecs GameID buffer hlen _ _ hfuel,
    fun fuel hf => decompressLoop_more codecs GameID buffer hlen _ _ fuel hfuel hf,
    fun st st1 h => ?_⟩
  have hstep := processBlockHeader_cursor codecs GameID buffer st st1 hlen h
  omega

/-- C20 on a stream of one block header and two raw blocks: it returns after one turn. -/
theorem C20_decoder_terminates_witness :
    (rawStream SupportedGames.Other [[[1, 2, 3], [4, 5]]]).length < 2 ^ 60 - 130 ∧
    0 < 5 ∧
    (DecompressPackageObject Fixture.noCodecs SupportedGames.Other 0
        (rawStream SupportedGames.Other [[[1, 2, 3], [4, 5]]]) 5 ≠ .outOfFuel ∧
      (∀ fuel, ((rawStream SupportedGames.Other [[[1, 2, 3], [4, 5]]]).length + 127) / 128 ≤
          fuel →
        decompressLoop Fixture.noCodecs SupportedGames.Other
            (rawStream SupportedGames.Other [[[1, 2, 3], [4, 5]]]) fuel (DecodeState.initial 5) =
          DecompressPackageObject Fixture.noCodecs SupportedGames.Other 0
            (rawStream SupportedGames.Other [[[1, 2, 3], [4, 5]]]) 5) ∧
      (∀ st st1, processBlockHeader Fixture.noCodecs SupportedGames.Other
          (rawStream SupportedGames.Other [[[1, 2, 3], [4, 5]]]) st = .ok st1 →
        st.Position < st1.Position ∧ st.Position + 128 ≤ st1.Position)) :=
  ⟨by decide!, by decide,
    C20_decoder_terminates Fixture.noCodecs SupportedGames.Other 0
      (rawStream SupportedGames.Other [[[1, 2, 3], [4, 5]]]) 5 (by decide!) (by decide)⟩

/-- The block header of 128 zero bytes announces no command. -/
theorem count_zeros : BO3XPakDataHeader.Count ⟨List.replicate 128 0⟩ = 0 := by decide!

/-- The re-alignment of line 227 at 2^60: the mask drops the bit and the cursor is back
at 0. -/
theorem alignPosition_wraps : alignPosition (2 ^ 60) = 0 := by decide

/-- One turn of the outer loop on `n = 2^60` zero bytes, from a multiple of 128 inside
the input: it goes through, and only the cursor has changed. -/
theorem processBlockHeader_zeros_eq (codecs : Codecs) (GameID : SupportedGames) (n : Nat)
    (hn : n = 2 ^ 60) (st : DecodeState) (h128 : st.Position % 128 = 0)
    (hpos : st.Position < n) :
    processBlockHeader codecs GameID (List.replicate n 0) st =
      .ok { st with Position := alignPosition (st.Position + 128) } := by
  have hfit : st.Position + 128 ≤ (List.replicate n (0 : UInt8)).length := by
    rw [List.length_replicate]; omega
  have hbytes : List.take 128 (List.drop st.Position (List.replicate n (0 : UInt8))) =
      List.replicate 128 0 := by
    rw [List.drop_replicate, List.take_replicate]
    congr 1
    omega
  unfold processBlockHeader MemoryReader.Read
  rw [if_pos hfit]
  simp only []
  rw [hbytes, count_zeros]
  simp only [processCommands]

/-- The cursor after such a turn is again a multiple of 128 inside the input. -/
theorem processBlockHeader_zeros (codecs : Codecs) (GameID : SupportedGames) (n : Nat)
    (hn : n = 2 ^ 60) (st : DecodeState) (h128 : st.Position % 128 = 0)
    (hpos : st.Position < n) :
    ∃ st1, processBlockHeader codecs GameID (List.replicate n 0) st = .ok st1 ∧
      st1.Position % 128 = 0 ∧ st1.Position < n := by
  refine ⟨_, processBlockHeader_zeros_eq codecs GameID n hn st h128 hpos, ?_⟩
  show alignPosition (st.Position + 128) % 128 = 0 ∧ alignPosition (st.Position + 128) < n
  by_cases hlast : st.Position + 128 = 2 ^ 60
  · rw [hlast, alignPosition_wraps]
    omega
  · rw [realign_eq (st.Position + 128) (by omega)]
    omega

/-- The outer loop on `n = 2^60` zero bytes never comes to its end, whatever the
number of turns. -/
theorem decompressLoop_zeros (codecs : Codecs) (GameID : SupportedGames) (n : Nat)
    (hn : n = 2 ^ 60) (fuel : Nat) :
    ∀ (st : DecodeState), st.Position % 128 = 0 → st.Position < n →
      decompressLoop codecs GameID (List.replicate n 0) fuel st = .outOfFuel := by
  induction fuel with
  | zero =>
    intro st _ hpos
    unfold decompressLoop
    rw [if_pos (by rw [List.length_replicate]; exact hpos)]
  | succ fuel ih =>
    intro st h128 hpos
    obtain ⟨st1, hok, h1, h2⟩ := processBlockHeader_zeros codecs GameID n hn st h128 hpos
    unfold decompressLoop
    rw [if_pos (by rw [List.length_replicate]; exact hpos), hok]
    exact ih st1 h1 h2

theorem DecompressPackageObject_zeros (codecs : Codecs) (GameID : SupportedGames)
    (cacheID n : Nat) (hn : n = 2 ^ 60) :
    DecompressPackageObject codecs GameID cacheID (List.replicate n 0) 1 = .outOfFuel := by
  unfold DecompressPackageObject
  rw [if_neg (by decide)]
  exact decompressLoop_zeros codecs GameID n hn _ (DecodeState.initial 1) rfl
    (by show 0 < n; omega)

/-- C20 as stated fails for an input of 2^60 bytes: on an input of 2^60 zero bytes
every block header announces no command, the cursor reaches 2^60 after the last of
them, and the re-alignment of line 227 puts it back to 0 (the turn from 2^60 - 128 moves
the cursor backwards): the outer loop does not come to its end after
`ceil(length / 128)` turns, nor after any other number of turns. -/
theorem C20_counterexample :
    DecompressPackageObject Fixture.noCodecs SupportedGames.Other 0
        (List.replicate (2 ^ 60) 0) 1 = .outOfFuel ∧
    (∀ fuel, decompressLoop Fixture.noCodecs SupportedGames.Other
        (List.replicate (2 ^ 60) 0) fuel (DecodeState.initial 1) = .outOfFuel) ∧
    processBlockHeader Fixture.noCodecs SupportedGames.Other (List.replicate (2 ^ 60) 0)
        { Position := 2 ^ 60 - 128, result := [0], resultSize := 0, remaining := 1 } =
      .ok { Position := alignPosition (2 ^ 60 - 128 + 128), result := [0], resultSize := 0,
            remaining := 1 } ∧
    alignPosition (2 ^ 60 - 128 + 128) = 0 :=
  ⟨DecompressPackageObject_zeros Fixture.noCodecs SupportedGames.Other 0 (2 ^ 60) rfl,
    fun fuel => decompressLoop_zeros Fixture.noCodecs SupportedGames.Other (2 ^ 60) rfl fuel
      (DecodeState.initial 1) rfl (by decide),
    processBlockHeader_zeros_eq Fixture.noCodecs SupportedGames.Other (2 ^ 60) rfl
      { Position := 2 ^ 60 - 128, result := [0], resultSize := 0, remaining := 1 }
      (by decide) (by decide),
    by decide⟩

/-- C12 as stated fails for an archive of version 0xD that ends before offset 408. The
file has 336 bytes: the second read of line 70 gets the 24 bytes from offset 312 on, and
the other 72 bytes of the header stay as the read in one piece left them, the file bytes
48 to 119. The header `LoadPackage` validates and decodes is not the file bytes 0 to 23
followed by what the file has from offset 312 on: its hash count and hash offset are
those of the file bytes 48 to 63, and with them the archive is loaded. -/
theorem C12_counterexample :
    Fixture.shortVariantArchive.length = 336 ∧
    (contiguousHeader (archiveBytes Fixture.shortVariantFs "short.xpak")).Version = 0xD ∧
    (archiveHeader Fixture.shortVariantFs "short.xpak").Bytes ≠
      (archiveBytes Fixture.shortVariantFs "short.xpak").take 24 ++
        ((archiveBytes Fixture.shortVariantFs "short.xpak").drop 312).take 96 ∧
    (archiveHeader Fixture.shortVariantFs "short.xpak").Bytes =
      Fixture.shortVariantArchive.take 24 ++ (Fixture.shortVariantArchive.drop 312).take 24 ++
        (Fixture.shortVariantArchive.drop 48).take 72 ∧
    (archiveHeader Fixture.shortVariantFs "short.xpak").DataOffset = 432 ∧
    (archiveHeader Fixture.shortVariantFs "short.xpak").HashCount = 1 ∧
    (archiveHeader Fixture.shortVariantFs "short.xpak").HashOffset = 120 ∧
    (LoadPackage Fixture.shortVariantFs XPAKCache.empty "short.xpak").1 = true ∧
    CacheMap.find (LoadPackage Fixture.shortVariantFs XPAKCache.empty "short.xpak").2.CacheObjects
        0xAA =
      some { Offset := 432, CompressedSize := 0, UncompressedSize := 0,
             PackageFileIndex := 0 } := by
  refine ⟨by decide!, by decide!, by decide!, by decide!, by decide!, by decide!, by decide!,
    by decide!, by decide!⟩

end XPAK
